import Mathlib

/-
  Verification development for the llmville interaction engine.

  Shallow embedding of the conversation state machine, the dialogue
  orchestrator, the action interpreter, the outcome resolver, the state
  applier and the relationship system, translated from the Python sources
  in src/.  Numeric values are modelled as rationals, Python dicts as
  association lists that preserve insertion order, and calls into the
  external text-generation service as explicit result parameters.
  A Python exception is modelled as the error branch of Except, carrying
  the state at the raise point where the caller can observe it.
-/

set_option maxRecDepth 4096

/-- Left and right curly brace characters, used by the JSON extraction scan. -/
def lbraceChar : Char := '\x7b'

def rbraceChar : Char := '\x7d'

/-- A JSON value as produced by parsing the structured output of the
language model.  Numbers are modelled as rationals. -/
inductive JVal where
  | jnull : JVal
  | jbool : Bool → JVal
  | jnum : ℚ → JVal
  | jstr : String → JVal
  | jarr : List JVal → JVal
  | jobj : List (String × JVal) → JVal

/-- Python truthiness of a JSON value (None, False, 0, empty string,
empty list and empty dict are falsy). -/
def pyTruthy : JVal → Bool
  | .jnull => false
  | .jbool b => b
  | .jnum n => if n = 0 then false else true
  | .jstr s => if s = "" then false else true
  | .jarr xs => match xs with | [] => false | _ => true
  | .jobj fs => match fs with | [] => false | _ => true

/-- Numeric view of a JSON value.  Python treats booleans as the integers
0 and 1 in arithmetic and comparisons; any other non-number value raises
a TypeError when compared with a number, which callers model as an error. -/
def pyNumQ : JVal → Option ℚ
  | .jnum n => some n
  | .jbool b => some (if b then 1 else 0)
  | _ => none

/-- Whether a JSON value compares equal to 0 under Python equality
(0, 0.0 and False all satisfy value == 0). -/
def pyEqZero : JVal → Bool
  | .jnum n => if n = 0 then true else false
  | .jbool b => !b
  | _ => false

/-- The values dropped by effect-map normalization: None, or a value that
Python considers equal to zero. -/
def is_null_or_zero : JVal → Bool
  | .jnull => true
  | v => pyEqZero v

/-- Integer rendering used for Python percent .0f formatting of effect
magnitudes.  Exact halves round half-to-even in Python; the claims never
evaluate the formatter at an exact half. -/
def fmt0 (q : ℚ) : String := toString (round q)

/-- Python str() of a JSON value, used where the source interpolates a
value into a message.  The claims only exercise the string case; container
rendering is abbreviated. -/
def pyStrOf : JVal → String
  | .jnull => "None"
  | .jbool b => if b then "True" else "False"
  | .jnum n => fmt0 n
  | .jstr s => s
  | .jarr _ => "[...]"
  | .jobj _ => "[...]"

/-- dict.get with a default, over an insertion-ordered association list. -/
def pyGetD (data : List (String × JVal)) (k : String) (d : JVal) : JVal :=
  match data with
  | [] => d
  | (k0, v) :: rest => if k0 = k then v else pyGetD rest k d

/-- Association-list lookup (Python dict indexing, first matching key). -/
def alistGet {α : Type} : List (String × α) → String → Option α
  | [], _ => none
  | (k0, v) :: rest, k => if k0 = k then some v else alistGet rest k

/-- Association-list store (Python dict assignment: replace in place, or
append a new entry at the end, preserving insertion order). -/
def alistSet {α : Type} : List (String × α) → String → α → List (String × α)
  | [], k, v => [(k, v)]
  | (k0, w) :: rest, k, v =>
      if k0 = k then (k, v) :: rest else (k0, w) :: alistSet rest k v

/-- Association-list delete (Python del on a dict key). -/
def alistErase {α : Type} : List (String × α) → String → List (String × α)
  | [], _ => []
  | (k0, w) :: rest, k =>
      if k0 = k then alistErase rest k else (k0, w) :: alistErase rest k

/-- Key-set insert for the pending-job registries (dict assignment viewed
as a set of keys). -/
def insertId (l : List String) (c : String) : List String :=
  if c ∈ l then l else c :: l

/-- Key-set delete for the pending-job registries (dict del viewed as a
set of keys). -/
def eraseId : List String → String → List String
  | [], _ => []
  | c :: rest, k => if c = k then eraseId rest k else c :: eraseId rest k

/-- Python list slicing l[-n:], keeping the last n entries. -/
def lastN {α : Type} (n : Nat) (l : List α) : List α := l.drop (l.length - n)

/-- Python whitespace test for str.strip (the common whitespace
characters; the exotic unicode spaces never occur in the engine). -/
def isSpaceChar (c : Char) : Bool :=
  c = ' ' ∨ c = '\t' ∨ c = '\n' ∨ c = '\r'

/-- Python str.strip: drop leading and trailing whitespace. -/
def pyStripChars (cs : List Char) : List Char :=
  ((cs.dropWhile isSpaceChar).reverse.dropWhile isSpaceChar).reverse

/-- Index of the first occurrence of a character (Python str.find). -/
def findIdxChar (c : Char) (cs : List Char) : Option Nat :=
  match cs with
  | [] => none
  | c0 :: rest =>
      if c0 = c then some 0
      else match findIdxChar c rest with
           | some i => some (i + 1)
           | none => none

/-- Index of the last occurrence of a character (Python str.rfind). -/
def rfindIdxChar (c : Char) (cs : List Char) : Option Nat :=
  match cs with
  | [] => none
  | c0 :: rest =>
      match rfindIdxChar c rest with
      | some i => some (i + 1)
      | none => if c0 = c then some 0 else none

/-- The JSON extraction step of the parsers: find the first opening brace
and the last closing brace and slice the text between them; fail when no
such well-ordered pair exists.  Translates response.find, response.rfind
and the start and end index checks. -/
def extractJsonChars (cs : List Char) : Option (List Char) :=
  match findIdxChar lbraceChar cs, rfindIdxChar rbraceChar cs with
  | some s, some e => if s < e + 1 then some ((cs.drop s).take (e + 1 - s)) else none
  | _, _ => none

/-- Scanner state machine for the action-marker regular expression (a
star, one or more non-star characters, a star).  State 0: outside any
candidate; state 1: just after an opening star; state 2: after an opening
star and at least one content character. -/
def markerScan : List Char → Nat → Bool
  | [], _ => false
  | c :: rest, st =>
      if c = '*' then
        match st with
        | 0 => markerScan rest 1
        | 1 => markerScan rest 1
        | _ => true
      else
        match st with
        | 0 => markerScan rest 0
        | _ => markerScan rest 2

/-- ACTION_MARKER_PATTERN.search: whether the text contains a delimited
action marker. -/
def containsActionMarker (s : String) : Bool := markerScan s.data 0

/-- Categories of items (entities/item.py). -/
inductive ItemCategory where
  | food | tool | material | luxury | weapon
deriving DecidableEq

/-- An item that can be held in inventory (entities/item.py).  The
description and effects fields of the source carry no behaviour used by
the engine and are kept as plain data. -/
structure Item where
  id : String
  name : String
  description : String
  category : ItemCategory
  base_value : ℚ
  weight : ℚ := 1
  stackable : Bool := true
  max_stack : Nat := 99
  effects : List (String × ℚ) := []
deriving DecidableEq

/-- The default item catalog (entities/item.py DEFAULT_ITEMS), an
insertion-ordered map from id to item. -/
def DEFAULT_ITEMS : List (String × Item) :=
  [ ("bread",
      { id := "bread", name := "Bread", description := "A fresh loaf of bread",
        category := .food, base_value := 5, effects := [("health_restore", 10)] }),
    ("apple",
      { id := "apple", name := "Apple", description := "A crisp red apple",
        category := .food, base_value := 2, effects := [("health_restore", 5)] }),
    ("ale",
      { id := "ale", name := "Ale", description := "A mug of frothy ale",
        category := .food, base_value := 8, effects := [("health_restore", 3)] }),
    ("iron_ore",
      { id := "iron_ore", name := "Iron Ore", description := "Raw iron ore from the mines",
        category := .material, base_value := 15 }),
    ("cloth",
      { id := "cloth", name := "Cloth", description := "A bolt of woven cloth",
        category := .material, base_value := 10 }),
    ("sword",
      { id := "sword", name := "Sword", description := "A simple iron sword",
        category := .weapon, base_value := 50, stackable := false }),
    ("hammer",
      { id := "hammer", name := "Hammer", description := "A blacksmith hammer",
        category := .tool, base_value := 25, stackable := false }),
    ("gold_ring",
      { id := "gold_ring", name := "Gold Ring", description := "A shiny gold ring",
        category := .luxury, base_value := 100, stackable := false }),
    ("wheat",
      { id := "wheat", name := "Wheat", description := "A bundle of wheat",
        category := .material, base_value := 3 }),
    ("rope",
      { id := "rope", name := "Rope", description := "A sturdy length of rope",
        category := .tool, base_value := 8 }) ]

/-- Generic association-list lookup for the item catalog. -/
def itemsGet : List (String × Item) → String → Option Item
  | [], _ => none
  | (k0, v) :: rest, k => if k0 = k then some v else itemsGet rest k

/-- First catalog item whose display name, lowercased, equals the query. -/
def itemsGetByName : List (String × Item) → String → Option Item
  | [], _ => none
  | (_, v) :: rest, k => if v.name.toLower = k then some v else itemsGetByName rest k

/-- get_item: case-insensitive catalog lookup, by id first, then by
lowercased id, then by lowercased display name (entities/item.py). -/
def get_item (item_id : String) : Option Item :=
  match itemsGet DEFAULT_ITEMS item_id with
  | some it => some it
  | none =>
      match itemsGet DEFAULT_ITEMS item_id.toLower with
      | some it => some it
      | none => itemsGetByName DEFAULT_ITEMS item_id.toLower

/-- A slot in the inventory holding an item and a quantity
(entities/person.py InventorySlot).  Quantities are rationals so that
quantities supplied by parsed JSON can be applied exactly as the source
does; integer quantities are the rationals with denominator one. -/
structure InventorySlot where
  item : Item
  quantity : ℚ := 1
deriving DecidableEq

/-- Relationship with another entity (entities/person.py Relationship). -/
structure Relationship where
  entity_id : String
  entity_name : String
  feeling_score : ℚ := 0
  interaction_count : Nat := 0
  last_interaction : ℚ := 0
  history : List String := []
  notes : List String := []
deriving DecidableEq

/-- A person entity (entities/person.py Person).  Position, personality,
role, age and facing direction carry no behaviour used by the claims and
are omitted; the conditions field stands for the health-condition
collection reached through the person state attribute. -/
structure Person where
  id : String
  name : String
  health : ℚ
  max_health : ℚ
  money : ℚ
  inventory : List InventorySlot := []
  inventory_capacity : Nat := 20
  relationships : List (String × Relationship) := []
  in_conversation : Bool := false
  conversation_partner_id : Option String := none
  conditions : List String := []
deriving DecidableEq

/-- Modelled from the spec: the person state attribute holding health
conditions is referenced throughout the sources but its class is not
under src/.  Per the spec the conditions form a set-like collection of
free-text labels; adding an existing label leaves the collection
unchanged. -/
def add_condition (p : Person) (c : String) : Person :=
  if c ∈ p.conditions then p else { p with conditions := p.conditions ++ [c] }

/-- Modelled from the spec: removal of a health-condition label from the
set-like collection (see add_condition). -/
def remove_condition (p : Person) (c : String) : Person :=
  { p with conditions := p.conditions.erase c }

/-- Walk the inventory looking for a stackable slot of the same item with
room for the added quantity; when one is found, stack onto it. -/
def addToSlots (item : Item) (q : ℚ) : List InventorySlot → Option (List InventorySlot)
  | [] => none
  | slot :: rest =>
      if slot.item.id = item.id ∧ item.stackable = true ∧ slot.quantity + q ≤ (item.max_stack : ℚ) then
        some ({ slot with quantity := slot.quantity + q } :: rest)
      else
        match addToSlots item q rest with
        | some rest2 => some (slot :: rest2)
        | none => none

/-- add_item (entities/person.py): stack onto an existing slot when
possible, otherwise append a new slot unless the inventory is full.
Returns the success flag together with the updated person. -/
def add_item (p : Person) (item : Item) (q : ℚ) : Bool × Person :=
  match addToSlots item q p.inventory with
  | some inv2 => (true, { p with inventory := inv2 })
  | none =>
      if p.inventory_capacity ≤ p.inventory.length then (false, p)
      else (true, { p with inventory := p.inventory ++ [{ item := item, quantity := q }] })

/-- Walk the inventory for a slot of the given item holding at least the
requested quantity; decrement it, dropping the slot when it reaches zero.
A matching slot with too small a quantity is skipped, as in the source
loop. -/
def removeFromSlots (item_id : String) (q : ℚ) : List InventorySlot → Option (List InventorySlot)
  | [] => none
  | slot :: rest =>
      if slot.item.id = item_id ∧ q ≤ slot.quantity then
        some (if slot.quantity - q ≤ 0 then rest
              else { slot with quantity := slot.quantity - q } :: rest)
      else
        match removeFromSlots item_id q rest with
        | some rest2 => some (slot :: rest2)
        | none => none

/-- remove_item (entities/person.py): remove a quantity of an item from
the inventory, returning whether it succeeded together with the updated
person; on failure the person is unchanged. -/
def remove_item (p : Person) (item_id : String) (q : ℚ) : Bool × Person :=
  match removeFromSlots item_id q p.inventory with
  | some inv2 => (true, { p with inventory := inv2 })
  | none => (false, p)

/-- Total quantity of an item held across all inventory slots. -/
def item_count : List InventorySlot → String → ℚ
  | [], _ => 0
  | slot :: rest, k =>
      (if slot.item.id = k then slot.quantity else 0) + item_count rest k

/-- take_damage (entities/person.py): health clamps at zero. -/
def take_damage (p : Person) (amount : ℚ) : Person :=
  { p with health := max 0 (p.health - amount) }

/-- heal (entities/person.py): health clamps at max health. -/
def heal (p : Person) (amount : ℚ) : Person :=
  { p with health := min p.max_health (p.health + amount) }

/-- get_relationship (entities/person.py): create the relationship entry
lazily on first reference, keyed by the other person id. -/
def get_relationship_ensure (p : Person) (other_id other_name : String) : Person :=
  match alistGet p.relationships other_id with
  | some _ => p
  | none =>
      { p with relationships :=
          p.relationships ++ [(other_id, { entity_id := other_id, entity_name := other_name })] }

/-- Apply a function to the relationship stored under a key. -/
def modifyRel : List (String × Relationship) → String →
    (Relationship → Relationship) → List (String × Relationship)
  | [], _, _ => []
  | (k0, r) :: rest, k, f =>
      (if k0 = k then (k0, f r) else (k0, r)) :: modifyRel rest k f

/-- update_relationship (entities/person.py): clamp the feeling score to
the interval from minus one to one, bump the interaction count, stamp the
game time, and append the optional note and summary to their bounded
histories (last five notes, last ten summaries).  Empty strings are falsy
in Python and are not appended. -/
def update_relationship (p : Person) (other_id : String) (feeling_delta : ℚ)
    (note : Option String) (summary : Option String) (game_time : ℚ) : Person :=
  let p1 := get_relationship_ensure p other_id ""
  { p1 with relationships := modifyRel p1.relationships other_id (fun r =>
      let r1 := { r with
        feeling_score := max (-1) (min 1 (r.feeling_score + feeling_delta)),
        interaction_count := r.interaction_count + 1,
        last_interaction := game_time }
      let r2 := match note with
        | some n => if n = "" then r1 else { r1 with notes := lastN 5 (r1.notes ++ [n]) }
        | none => r1
      match summary with
        | some sm => if sm = "" then r2 else { r2 with history := lastN 10 (r2.history ++ [sm]) }
        | none => r2) }

/-- States of a conversation (ai/conversation.py ConversationState). -/
inductive ConversationState where
  | starting | active | ending | ended
deriving DecidableEq

/-- A single message in the conversation (ai/conversation.py Message).
The wall-clock timestamp and the literal action list carry no behaviour
used by the claims and are omitted. -/
structure Msg where
  speaker_id : String
  speaker_name : String
  content : String
  is_narrator : Bool := false
deriving DecidableEq

/-- State and history of a single conversation (ai/conversation.py
Conversation).  The current speaker, a reference to one of the two fixed
participants in the source, is modelled by a flag selecting participant
a or participant b. -/
structure Conversation where
  id : String
  participant_a : Person
  participant_b : Person
  state : ConversationState
  messages : List Msg
  current_speaker_is_a : Bool
  turn_count : Nat
  max_turns : Nat
  started_at : ℚ
deriving DecidableEq

/-- Conversation construction (ai/conversation.py __init__): id derived
from the participant ids and the whole-second creation time, state
STARTING, participant a speaks first, default ten turns per participant. -/
def Conversation.create (a b : Person) (now : ℚ) : Conversation :=
  { id := "conv_" ++ a.id ++ "_" ++ b.id ++ "_" ++ toString ⌊now⌋,
    participant_a := a, participant_b := b,
    state := .starting, messages := [],
    current_speaker_is_a := true, turn_count := 0, max_turns := 10,
    started_at := now }

/-- The participant currently due to speak. -/
def current_speaker (c : Conversation) : Person :=
  if c.current_speaker_is_a then c.participant_a else c.participant_b

/-- add_message (ai/conversation.py): append a dialogue message,
increment the turn counter, and mark the conversation ENDING once the
counter reaches twice the per-participant turn limit. -/
def add_message (c : Conversation) (sid sname content : String) : Conversation :=
  { c with
    messages := c.messages ++ [{ speaker_id := sid, speaker_name := sname, content := content }],
    turn_count := c.turn_count + 1,
    state := if c.max_turns * 2 ≤ c.turn_count + 1 then .ending else c.state }

/-- add_narrator_message (ai/conversation.py): append a narrator message
without touching the turn counter; a no-op on empty text. -/
def add_narrator_message (c : Conversation) (content : String) : Conversation :=
  if content = "" then c
  else { c with messages := c.messages ++
          [{ speaker_id := "narrator", speaker_name := "Narrator",
             content := content, is_narrator := true }] }

/-- switch_speaker (ai/conversation.py): toggle between the two fixed
participants. -/
def switch_speaker (c : Conversation) : Conversation :=
  { c with current_speaker_is_a := !c.current_speaker_is_a }

/-- Clearing of one participant conversation flags, as done by the
conversation end procedure. -/
def clearConvFlags (p : Person) : Person :=
  { p with in_conversation := false, conversation_partner_id := none }

/-- The conversation end procedure (ai/conversation.py end): set the
state to ENDED and clear both participants conversation flags. -/
def conv_end (c : Conversation) : Conversation :=
  { c with state := .ended,
           participant_a := clearConvFlags c.participant_a,
           participant_b := clearConvFlags c.participant_b }

/-- is_active (ai/conversation.py): the conversation is still running
while STARTING or ACTIVE. -/
def conv_is_active (c : Conversation) : Bool :=
  match c.state with
  | .starting => true
  | .active => true
  | _ => false

/-- An action extracted from dialogue by the interpreter
(ai/action_types.py InterpretedAction). -/
structure InterpretedAction where
  description : String
  actor_id : String
  target_id : String
  intent : String := ""
  is_physical : Bool := false
  ends_conversation : Bool := false
  confidence : ℚ := 1
deriving DecidableEq

/-- Result of attempting an action (ai/action_types.py ActionOutcome).
The open-ended effect maps keep the parsed JSON values. -/
structure ActionOutcome where
  action : InterpretedAction
  success : Bool
  degree : ℚ := 1
  actor_effects : List (String × JVal) := []
  target_effects : List (String × JVal) := []
  narrative : String := ""
  relationship_delta : ℚ := 0

/-- _parse_interpretation (ai/action_interpreter.py): extract the JSON
object from the raw response, require a truthy action_detected flag and
read the remaining fields with their defaults.  The JSON parser stands in
for json.loads and returns none exactly when parsing raises.  Fields the
source stores without conversion are coerced at their observable uses. -/
def parse_interpretation (jsonParse : List Char → Option (List (String × JVal)))
    (response : String) (actor_id target_id : String) : Option InterpretedAction :=
  match extractJsonChars (pyStripChars response.data) with
  | none => none
  | some js =>
      match jsonParse js with
      | none => none
      | some data =>
          if pyTruthy (pyGetD data ("action_detected") (.jbool false)) then
            some { description := pyStrOf (pyGetD data ("description") (.jstr "")),
                   actor_id := actor_id, target_id := target_id,
                   intent := pyStrOf (pyGetD data ("intent") (.jstr "")),
                   is_physical := pyTruthy (pyGetD data ("is_physical") (.jbool false)),
                   ends_conversation := pyTruthy (pyGetD data ("ends_conversation") (.jbool false)),
                   confidence :=
                     match pyNumQ (pyGetD data ("confidence") (.jnum 1)) with
                     | some q => q
                     | none => 1 }
          else none

/-- interpret (ai/action_interpreter.py): skip the language-model call
entirely unless the dialogue contains an action marker.  The response
argument stands for the text the generation call would return, and the
returned flag records whether that call was made at all. -/
def interpret (genResponse : String)
    (jsonParse : List Char → Option (List (String × JVal)))
    (dialogue_text : String) (speaker listener : Person) :
    Option InterpretedAction × Bool :=
  if containsActionMarker dialogue_text then
    (parse_interpretation jsonParse genResponse speaker.id listener.id, true)
  else
    (none, false)

/-- Classes of Python exceptions inside the outcome parser: those caught
by its except clause (JSON decode, Key, Type and Value errors) and those
that escape it (attribute errors from calling items on a non-dict). -/
inductive PErr where
  | caughtE | uncaughtE
deriving DecidableEq

/-- The normalization loop of _normalize_effects: rebuild the map keeping
only entries whose value is neither None nor zero. -/
def normFilter : List (String × JVal) → List (String × JVal)
  | [] => []
  | (k, v) :: rest =>
      if is_null_or_zero v then normFilter rest else (k, v) :: normFilter rest

/-- _normalize_effects (ai/outcome_resolver.py): over a dict, drop every
entry whose value is None or compares equal to zero; a falsy non-dict
yields the empty map, and a truthy non-dict raises an attribute error
that the outcome parser does not catch. -/
def normalize_effects : JVal → Except PErr (List (String × JVal))
  | .jobj fields => .ok (normFilter fields)
  | v => if pyTruthy v then .error .uncaughtE else .ok []

/-- The clauses contributed by one side of the effect maps to the
mechanical narrative, in the fixed source order: health loss, added
condition, gold received or lost, single item received, single item lost.
Health gains produce no clause, and only the singular add_item and
remove_item keys are consulted.  Comparing a non-numeric health or gold
value with zero raises a TypeError, which the outcome parser catches. -/
def narrSide (who : String) (effects : List (String × JVal)) : Except PErr (List String) :=
  match effects with
  | [] => .ok []
  | _ =>
      match pyNumQ (pyGetD effects ("health") (.jnum 0)) with
      | none => .error .caughtE
      | some h =>
          match pyNumQ (pyGetD effects ("gold") (.jnum 0)) with
          | none => .error .caughtE
          | some g =>
              let cond := pyGetD effects ("add_condition") .jnull
              let itemIn := pyGetD effects ("add_item") .jnull
              let itemOut := pyGetD effects ("remove_item") .jnull
              .ok ((if h < 0 then [who ++ " loses " ++ fmt0 (abs h) ++ " health"] else []) ++
                   (if pyTruthy cond then [who ++ " suffers " ++ pyStrOf cond] else []) ++
                   (if 0 < g then [who ++ " receives " ++ fmt0 g ++ " gold"]
                    else if g < 0 then [who ++ " loses " ++ fmt0 (abs g) ++ " gold"] else []) ++
                   (if pyTruthy itemIn then [who ++ " receives " ++ pyStrOf itemIn] else []) ++
                   (if pyTruthy itemOut then [who ++ " loses " ++ pyStrOf itemOut] else []))

/-- _generate_factual_narrative (ai/outcome_resolver.py): concatenate the
target-side clauses then the actor-side clauses, joined by a period and a
space with a trailing period; empty when no clause applies. -/
def generate_factual_narrative (actorName targetName : String)
    (actor_effects target_effects : List (String × JVal)) : Except PErr String :=
  match actor_effects, target_effects with
  | [], [] => .ok ""
  | _, _ =>
      match narrSide targetName target_effects with
      | .error e => .error e
      | .ok pt =>
          match narrSide actorName actor_effects with
          | .error e => .error e
          | .ok pa =>
              match pt ++ pa with
              | [] => .ok ""
              | parts => .ok (String.intercalate (". ") parts ++ ".")

/-- The neutral outcome returned by the outcome parser on a parse
failure: no success, zero degree, empty effect maps, empty narrative,
zero relationship delta. -/
def neutral_outcome (action : InterpretedAction) : ActionOutcome :=
  { action := action, success := false, degree := 0,
    actor_effects := [], target_effects := [],
    narrative := "", relationship_delta := 0 }

/-- Whether either normalized effect map is non-empty. -/
def effsNonempty (ae te : List (String × JVal)) : Bool :=
  match ae, te with
  | [], [] => false
  | _, _ => true

/-- The body of _parse_outcome before its except clause: extract and
parse the JSON object, normalize the two effect maps, and build the
outcome, synthesizing the narrative mechanically when effects are present
but the supplied narrative is falsy.  A falsy non-string narrative is
observationally equivalent to the empty string downstream and is coerced
to it; the degree and relationship-delta fields, stored raw by the
source and only ever read numerically or logged, are coerced through
their numeric view. -/
def parseOutcomeBody (jsonParse : List Char → Option (List (String × JVal)))
    (response : String) (action : InterpretedAction) (actor target : Person) :
    Except PErr ActionOutcome :=
  match extractJsonChars (pyStripChars response.data) with
  | none => .error .caughtE
  | some js =>
      match jsonParse js with
      | none => .error .caughtE
      | some data =>
          match normalize_effects (pyGetD data ("actor_effects") (.jobj [])) with
          | .error e => .error e
          | .ok ae =>
              match normalize_effects (pyGetD data ("target_effects") (.jobj [])) with
              | .error e => .error e
              | .ok te =>
                  let succ := pyTruthy (pyGetD data ("success") (.jbool false))
                  let nv := pyGetD data ("narrative") (.jstr "")
                  let narrE :=
                    if !pyTruthy nv then
                      if effsNonempty ae te then
                        generate_factual_narrative actor.name target.name ae te
                      else .ok ""
                    else .ok (pyStrOf nv)
                  match narrE with
                  | .error e => .error e
                  | .ok narr =>
                      .ok { action := action, success := succ,
                            degree :=
                              match pyNumQ (pyGetD data ("degree") (.jnum (1/2))) with
                              | some q => q
                              | none => 0,
                            actor_effects := ae, target_effects := te,
                            narrative := narr,
                            relationship_delta :=
                              match pyNumQ (pyGetD data ("relationship_delta") (.jnum 0)) with
                              | some q => q
                              | none => 0 }

/-- _parse_outcome (ai/outcome_resolver.py): run the parse body, catch
the JSON, key, type and value errors by returning the neutral outcome,
and let any other exception escape to the caller. -/
def parse_outcome (jsonParse : List Char → Option (List (String × JVal)))
    (response : String) (action : InterpretedAction) (actor target : Person) :
    Except Unit ActionOutcome :=
  match parseOutcomeBody jsonParse response action actor target with
  | .ok o => .ok o
  | .error .caughtE => .ok (neutral_outcome action)
  | .error .uncaughtE => .error ()

/-- Modelled from the spec: ClaudeClient.generate_outcome_sync is invoked
by the resolver but is not defined under src/.  Per the external
interface contract the text-generation collaborator applies its own
error handling and never raises past the caller boundary; a call whose
transport errors is treated as an empty result, in line with the other
synchronous generation wrappers in ai/claude_client.py. -/
def generate_outcome_sync (transport : Except String String) : String :=
  match transport with
  | .ok s => s
  | .error _ => ""

/-- resolve (ai/outcome_resolver.py): obtain the raw generation response
for the action context and parse it into an ActionOutcome.  The transport
argument is the fate of the underlying network call. -/
def resolve (transport : Except String String)
    (jsonParse : List Char → Option (List (String × JVal)))
    (action : InterpretedAction) (actor target : Person) :
    Except Unit ActionOutcome :=
  parse_outcome jsonParse (generate_outcome_sync transport) action actor target

/-- Composition of JSON extraction and parsing on a raw response; none
exactly when the response contains no parseable JSON object. -/
def parsedObj (jsonParse : List Char → Option (List (String × JVal)))
    (response : String) : Option (List (String × JVal)) :=
  match extractJsonChars (pyStripChars response.data) with
  | none => none
  | some js => jsonParse js

/-- The add_items loop of the state applier: add each named catalog item
once; looking up a non-string element raises. -/
def addItemsLoop : Person → List JVal → Except Person Person
  | p, [] => .ok p
  | p, .jstr s0 :: rest =>
      addItemsLoop (match get_item s0 with
                    | some it => (add_item p it 1).2
                    | none => p) rest
  | p, _ :: _ => .error p

/-- The remove_items loop of the state applier: remove each named item
once; a non-string element matches no inventory slot and is skipped
without error. -/
def removeItemsLoop : Person → List JVal → Person
  | p, [] => p
  | p, .jstr s0 :: rest => removeItemsLoop (remove_item p s0 1).2 rest
  | p, _ :: rest => removeItemsLoop p rest

/-- The give_item branch of the state applier: remove the referenced item
in the stated quantity.  A non-string item id matches no slot; a
non-numeric quantity raises once a matching slot is compared against it. -/
def giveItemEffect (p : Person) (fs : List (String × JVal)) : Except Person Person :=
  match pyGetD fs ("item") (.jstr "") with
  | .jstr s0 =>
      if p.inventory.any (fun sl => sl.item.id == s0) then
        match pyNumQ (pyGetD fs ("quantity") (.jnum 1)) with
        | some q => .ok (remove_item p s0 q).2
        | none => .error p
      else .ok p
  | _ => .ok p

/-- The receive_item branch of the state applier: resolve the item
through the catalog and add it in the stated quantity.  Catalog lookup of
a non-string id raises; a non-numeric quantity is modelled as raising at
its first arithmetic use. -/
def receiveItemEffect (p : Person) (fs : List (String × JVal)) : Except Person Person :=
  match pyGetD fs ("item") (.jstr "") with
  | .jstr s0 =>
      match get_item s0 with
      | some it =>
          match pyNumQ (pyGetD fs ("quantity") (.jnum 1)) with
          | some q => .ok (add_item p it q).2
          | none => .error p
      | none => .ok p
  | _ => .error p

/-- One iteration of the effect-application loop of _apply_effects
(systems/state_manager.py): dispatch on the effect key; None values are
skipped, unknown keys are ignored, and a type mismatch on a numeric
effect raises, leaving the entity as mutated so far. -/
def applyEffect (p : Person) (k : String) (v : JVal) : Except Person Person :=
  match v, k with
  | .jnull, _ => .ok p
  | v, "health" =>
      (match pyNumQ v with
       | some n => .ok (if n < 0 then take_damage p (abs n) else heal p n)
       | none => .error p)
  | v, "gold" =>
      (match pyNumQ v with
       | some n => .ok { p with money := max 0 (p.money + n) }
       | none => .error p)
  | .jstr cs, "add_condition" => .ok (if cs = "" then p else add_condition p cs)
  | .jstr cs, "remove_condition" => .ok (if cs = "" then p else remove_condition p cs)
  | .jstr s0, "add_item" =>
      .ok (match get_item s0 with
           | some it => (add_item p it 1).2
           | none => p)
  | .jarr xs, "add_items" => addItemsLoop p xs
  | .jstr s0, "remove_item" => .ok (remove_item p s0 1).2
  | .jarr xs, "remove_items" => .ok (removeItemsLoop p xs)
  | .jobj fs, "give_item" => giveItemEffect p fs
  | .jobj fs, "receive_item" => receiveItemEffect p fs
  | _, _ => .ok p

/-- _apply_effects (systems/state_manager.py): fold the effect map over
the entity in insertion order; an exception stops the loop with the
entity keeping the mutations applied so far. -/
def apply_effects (p : Person) : List (String × JVal) → Except Person Person
  | [] => .ok p
  | (k, v) :: rest =>
      match applyEffect p k v with
      | .ok p2 => apply_effects p2 rest
      | .error p2 => .error p2

/-- apply_outcome (systems/state_manager.py): apply the actor effects,
then the target effects, then a non-zero relationship delta to the
relationship of the target toward the actor, with the action description
recorded as a note. -/
def apply_outcome (outcome : ActionOutcome) (actor target : Person)
    (game_time : ℚ) : Except (Person × Person) (Person × Person) :=
  match apply_effects actor outcome.actor_effects with
  | .error a2 => .error (a2, target)
  | .ok a2 =>
      match apply_effects target outcome.target_effects with
      | .error t2 => .error (a2, t2)
      | .ok t2 =>
          if outcome.relationship_delta = 0 then .ok (a2, t2)
          else
            let t3 := get_relationship_ensure t2 a2.id a2.name
            let t4 := update_relationship t3 a2.id outcome.relationship_delta
                        (some outcome.action.description) none game_time
            .ok (a2, t4)

/-- update_from_conversation (systems/relationship.py): update both
participants relationships with their respective feeling deltas, the
shared summary and their own optional notes, then pin the display name of
the other participant on each entry. -/
def update_from_conversation (a b : Person) (feeling_delta_a feeling_delta_b : ℚ)
    (summary : String) (note_a note_b : Option String) (game_time : ℚ) :
    Person × Person :=
  let a1 := update_relationship a b.id feeling_delta_a note_a (some summary) game_time
  let a2 := { a1 with relationships :=
                modifyRel a1.relationships b.id (fun r => { r with entity_name := b.name }) }
  let b1 := update_relationship b a.id feeling_delta_b note_b (some summary) game_time
  let b2 := { b1 with relationships :=
                modifyRel b1.relationships a.id (fun r => { r with entity_name := a.name }) }
  (a2, b2)

/-- A parsed post-conversation reflection (ai/claude_client.py). -/
structure Reflection where
  summary : String
  delta : ℚ
  observation : Option String
deriving DecidableEq

/-- _parse_reflection_response (ai/claude_client.py): scan the response
lines for the SUMMARY, FEELING and OBSERVATION fields, clamping the
feeling delta to the interval from minus three tenths to three tenths.
The float parser stands in for the Python float constructor and returns
none exactly when it raises. -/
def parse_reflection_response (parseFloat : String → Option ℚ) (text : String) : Reflection :=
  (text.trim.splitOn "\n").foldl (fun r line =>
    if line.startsWith ("SUMMARY:") then { r with summary := (line.drop 8).trim }
    else if line.startsWith ("FEELING:") then
      match parseFloat (line.drop 8).trim with
      | some d => { r with delta := max (-(3/10)) (min (3/10) d) }
      | none => r
    else if line.startsWith ("OBSERVATION:") then
      let obs := (line.drop 12).trim
      if obs.toLower = "nothing notable" ∨ obs.toLower = "none" ∨ obs.toLower = "n/a" then r
      else { r with observation := some obs }
    else r)
    { summary := "Had a conversation", delta := 0, observation := none }

/-- generate_reflection_sync (ai/claude_client.py): parse the generation
response, or fall back to a generic summary with a small positive feeling
delta when the call errors. -/
def generate_reflection_sync (parseFloat : String → Option ℚ)
    (transport : Except String String) : Reflection :=
  match transport with
  | .ok text => parse_reflection_response parseFloat text
  | .error _ => { summary := "Had a conversation", delta := 5/100, observation := none }

/-- The reflection job submitted by _end_conversation
(interaction/dialogue_manager.py generate_reflections): update both
relationships from the two per-participant reflections; when anything in
the job raises, fall back to updating both relationships with the
default small positive delta and the generic summary.  The argument
carries the fate of the reflection computation: the two parsed
reflections, or the exception its except clause caught. -/
def generate_reflections (reflections : Except String (Reflection × Reflection))
    (a b : Person) (game_time : ℚ) : Person × Person :=
  match reflections with
  | .ok (ra, rb) =>
      update_from_conversation a b ra.delta rb.delta ra.summary
        ra.observation rb.observation game_time
  | .error _ =>
      update_from_conversation a b (5/100) (5/100) "Had a conversation"
        none none game_time

/-- The dictionary a completed action-processing job hands back to the
simulation thread (interaction/dialogue_manager.py
_process_action_in_background). -/
structure ActionResult where
  speaker_id : String
  listener_id : String
  speaker_name : String
  listener_name : String
  action : Option InterpretedAction := none
  outcome : Option ActionOutcome := none
  ends_conversation : Bool := false

/-- State of the dialogue orchestrator (interaction/dialogue_manager.py
DialogueManager): the conversation registry, the two pending-job
registries keyed by conversation id, the pacing bookkeeping, the viewed
conversation pointer and the configured turn ceiling and turn delay. -/
structure DMState where
  conversations : List (String × Conversation)
  pending_requests : List String
  pending_actions : List String
  last_turn_time : List (String × ℚ)
  viewed_conversation_id : Option String
  max_turns : Nat
  turn_delay : ℚ

/-- A fresh dialogue manager: empty registries, no viewed conversation,
the configured turn ceiling, and the pacing delay of one and a half
seconds. -/
def DMState.initState (mt : Nat) : DMState :=
  { conversations := [], pending_requests := [], pending_actions := [],
    last_turn_time := [], viewed_conversation_id := none,
    max_turns := mt, turn_delay := 3/2 }

/-- Pacing lookup with the zero default (last_turn_time.get(conv_id, 0)). -/
def lookupTime (l : List (String × ℚ)) (cid : String) : ℚ :=
  match alistGet l cid with
  | some t => t
  | none => 0

/-- _start_turn (interaction/dialogue_manager.py): a no-op when the
conversation already has a pending dialogue request or is no longer
active; otherwise the first turn of a conversation with no messages
moves it to ACTIVE, and a generation job is recorded as pending.  The
prompt construction and the submitted call are pure data and carry no
orchestrator state. -/
def dm_start_turn (s : DMState) (cid : String) : DMState :=
  if cid ∈ s.pending_requests then s
  else
    match alistGet s.conversations cid with
    | none => s
    | some conv =>
        if !conv_is_active conv then s
        else
          let conv2 := if conv.messages.isEmpty then { conv with state := .active } else conv
          { s with conversations := alistSet s.conversations cid conv2,
                   pending_requests := insertId s.pending_requests cid }

/-- _handle_turn_result (interaction/dialogue_manager.py): append the raw
response as a dialogue message of the current speaker immediately, then
record the follow-up action-processing job as pending. -/
def dm_handle_turn_result (s : DMState) (cid : String) (response : String) : DMState :=
  match alistGet s.conversations cid with
  | none => s
  | some conv =>
      let conv2 := add_message conv (current_speaker conv).id (current_speaker conv).name response
      { s with conversations := alistSet s.conversations cid conv2,
               pending_actions := insertId s.pending_actions cid }

/-- _end_conversation (interaction/dialogue_manager.py): finalize the
conversation synchronously through its end procedure.  The fire-and-
forget reflection job it also submits is not tracked in either pending
registry; its eventual relationship effect is modelled separately by
generate_reflections. -/
def dm_end_conversation (s : DMState) (cid : String) : DMState :=
  match alistGet s.conversations cid with
  | none => s
  | some conv =>
      { s with conversations := alistSet s.conversations cid (conv_end conv) }

/-- _force_end_conversation (interaction/dialogue_manager.py): inject a
farewell line from the current speaker, move the conversation to ENDING
and end it. -/
def dm_force_end_conversation (s : DMState) (cid : String) : DMState :=
  match alistGet s.conversations cid with
  | none => s
  | some conv =>
      let conv2 := { add_message conv (current_speaker conv).id (current_speaker conv).name
                       ("Well, I should get going. Take care!") with
                     state := ConversationState.ending }
      dm_end_conversation { s with conversations := alistSet s.conversations cid conv2 } cid

/-- Write the updated speaker and listener person records back into the
participant slots they were read from. -/
def writeBackParticipants (conv : Conversation) (spIsB : Bool) (sp2 : Person)
    (liIsB : Bool) (li2 : Person) : Conversation :=
  let c1 := if spIsB then { conv with participant_b := sp2 }
            else { conv with participant_a := sp2 }
  if liIsB then { c1 with participant_b := li2 } else { c1 with participant_a := li2 }

/-- The tail of _apply_action_result: an action flagged as ending the
conversation moves it to ENDING and ends it at once; otherwise the
speaker switches for the next turn. -/
def finishActionResult (c : Conversation) (ends : Bool) : Conversation :=
  if ends then conv_end { c with state := ConversationState.ending }
  else switch_speaker c

/-- The conversation-local work of _apply_action_result
(interaction/dialogue_manager.py): re-identify the speaker and listener
among the participants (switching the speaker and stopping when either is
missing), apply the outcome through the state applier, append any
narrative as a narrator message, and finish by ending or switching.  An
exception escaping the state applier leaves the participants as mutated
so far and is caught by the caller. -/
def applyResultToConv (conv : Conversation) (r : ActionResult) (game_time : ℚ) :
    Except Conversation Conversation :=
  let speakerIsB : Option Bool :=
    if conv.participant_b.id = r.speaker_id then some true
    else if conv.participant_a.id = r.speaker_id then some false
    else none
  let listenerIsB : Option Bool :=
    if conv.participant_b.id ≠ r.speaker_id ∧ conv.participant_b.id = r.listener_id then some true
    else if conv.participant_a.id ≠ r.speaker_id ∧ conv.participant_a.id = r.listener_id then some false
    else none
  match speakerIsB, listenerIsB with
  | some sp, some li =>
      let spP := if sp then conv.participant_b else conv.participant_a
      let liP := if li then conv.participant_b else conv.participant_a
      (match r.outcome with
       | some outcome =>
           (match apply_outcome outcome spP liP game_time with
            | .error (sp2, li2) => .error (writeBackParticipants conv sp sp2 li li2)
            | .ok (sp2, li2) =>
                let conv1 := writeBackParticipants conv sp sp2 li li2
                let conv2 := if outcome.narrative = "" then conv1
                             else add_narrator_message conv1 outcome.narrative
                .ok (finishActionResult conv2 r.ends_conversation))
       | none => .ok (finishActionResult conv r.ends_conversation))
  | _, _ => .ok (switch_speaker conv)

/-- _apply_action_result lifted to the orchestrator state: all its
mutations are local to the conversation and its participants. -/
def dm_apply_action_result (s : DMState) (cid : String) (r : ActionResult)
    (game_time : ℚ) : Except DMState DMState :=
  match alistGet s.conversations cid with
  | none => .ok s
  | some conv =>
      match applyResultToConv conv r game_time with
      | .ok conv2 => .ok { s with conversations := alistSet s.conversations cid conv2 }
      | .error conv2 => .error { s with conversations := alistSet s.conversations cid conv2 }

/-- Oracles describing the fate of the background jobs at one tick: for
each conversation id, whether its pending future reports done, and the
result or exception collecting it yields. -/
structure UpdateOracle where
  req_done : String → Bool
  req_result : String → Except String String
  act_done : String → Bool
  act_result : String → Except String ActionResult

/-- State reached by collecting a background job on the simulation
thread, whether the application ran to completion or its exception was
swallowed by the tick. -/
def dmVal (e : Except DMState DMState) : DMState :=
  match e with
  | .ok s => s
  | .error s => s

/-- Clearing of a collected action-processing slot together with the
pacing stamp (del pending_actions, last_turn_time assignment). -/
def dm_clear_action_slot (s : DMState) (cid : String) (t : ℚ) : DMState :=
  { s with pending_actions := eraseId s.pending_actions cid,
           last_turn_time := alistSet s.last_turn_time cid t }

/-- The turn-ceiling check after collecting an action job: force the
conversation to end once the counter has reached twice the configured
limit. -/
def dm_check_force_end (s : DMState) (cid : String) : DMState :=
  match alistGet s.conversations cid with
  | some conv2 =>
      if s.max_turns * 2 ≤ conv2.turn_count then dm_force_end_conversation s cid else s
  | none => s

/-- Collection of a completed action-processing job: apply its result (or
swallow its exception), clear the slot, stamp the pacing time and check
the turn ceiling. -/
def dm_collect_action (o : UpdateOracle) (current_time game_time : ℚ)
    (s : DMState) (cid : String) : DMState :=
  dm_check_force_end
    (dm_clear_action_slot
      (match o.act_result cid with
       | .ok r => dmVal (dm_apply_action_result s cid r game_time)
       | .error _ => s) cid current_time) cid

/-- The recovery path for a dialogue request whose future raised: record
the filler line, switch the speaker and stamp the pacing time. -/
def dm_request_failed (s : DMState) (cid : String) (conv : Conversation) (t : ℚ) : DMState :=
  { s with conversations := alistSet s.conversations cid
             (switch_speaker (add_message conv (current_speaker conv).id
                (current_speaker conv).name ("*trails off awkwardly*"))),
           last_turn_time := alistSet s.last_turn_time cid t }

/-- Clearing of a collected dialogue-request slot (del pending_requests). -/
def dm_clear_request_slot (s : DMState) (cid : String) : DMState :=
  { s with pending_requests := eraseId s.pending_requests cid }

/-- Collection of a completed dialogue request: hand the response to the
turn handler, or recover from its exception, then clear the slot. -/
def dm_collect_request (o : UpdateOracle) (current_time : ℚ)
    (s : DMState) (cid : String) (conv : Conversation) : DMState :=
  dm_clear_request_slot
    (match o.req_result cid with
     | .ok response => dm_handle_turn_result s cid response
     | .error _ => dm_request_failed s cid conv current_time) cid

/-- The per-conversation body of update (interaction/dialogue_manager.py
lines 100 to 145): poll a pending action-processing job first, then a
pending dialogue request, and only when neither is pending and the pacing
delay has elapsed submit a new turn.  Collecting a completed job clears
its registry slot; an exception from either job is swallowed, with a
failed dialogue request replaced by a filler line and a speaker switch. -/
def dm_process_conv (o : UpdateOracle) (current_time game_time : ℚ) (paused : Bool)
    (s : DMState) (cid : String) : DMState :=
  match alistGet s.conversations cid with
  | none => s
  | some conv =>
      if !conv_is_active conv then s
      else if cid ∈ s.pending_actions then
        (if o.act_done cid then dm_collect_action o current_time game_time s cid else s)
      else if cid ∈ s.pending_requests then
        (if o.req_done cid then dm_collect_request o current_time s cid conv else s)
      else
        if !paused ∧ s.turn_delay ≤ current_time - lookupTime s.last_turn_time cid then
          dm_start_turn s cid
        else s

/-- The removal of one ENDED conversation during cleanup
(interaction/dialogue_manager.py _cleanup_ended_conversations loop body):
drop its pending-job slots, its pacing entry, its registry entry and the
viewed pointer when it refers to it. -/
def dm_cleanup_step (st : DMState) (cid : String) : DMState :=
  { st with
    viewed_conversation_id :=
      if st.viewed_conversation_id = some cid then none else st.viewed_conversation_id,
    pending_requests := eraseId st.pending_requests cid,
    pending_actions := eraseId st.pending_actions cid,
    last_turn_time := alistErase st.last_turn_time cid,
    conversations := alistErase st.conversations cid }

/-- _cleanup_ended_conversations as a fold of the per-id removal step
over the ids of the ENDED conversations. -/
def dm_cleanup (s : DMState) : DMState :=
  ((s.conversations.filter (fun kv =>
      match kv.2.state with | .ended => true | _ => false)).map (fun kv => kv.1)).foldl
    dm_cleanup_step s

/-- update (interaction/dialogue_manager.py): one non-blocking tick over
a snapshot of the registry, followed by removal of ended conversations. -/
def dm_update (o : UpdateOracle) (current_time game_time : ℚ) (paused : Bool)
    (s : DMState) : DMState :=
  dm_cleanup ((s.conversations.map (fun kv => kv.1)).foldl
    (dm_process_conv o current_time game_time paused) s)

/-- initiate_conversation (interaction/dialogue_manager.py): register a
fresh conversation with the configured turn ceiling, reset its pacing
entry, adopt it as the viewed conversation when none is set, and submit
its first turn immediately. -/
def dm_initiate_conversation (s : DMState) (a b : Person) (now : ℚ) : DMState :=
  let conv := { Conversation.create a b now with max_turns := s.max_turns }
  let s1 := { s with
    conversations := alistSet s.conversations conv.id conv,
    last_turn_time := alistSet s.last_turn_time conv.id 0,
    viewed_conversation_id :=
      match s.viewed_conversation_id with
      | none => some conv.id
      | some v => some v }
  dm_start_turn s1 conv.id

/-- view_conversation (interaction/dialogue_manager.py): point the viewer
at a registered conversation. -/
def dm_view_conversation (s : DMState) (cid : String) : DMState :=
  match alistGet s.conversations cid with
  | some _ => { s with viewed_conversation_id := some cid }
  | none => s

/-- Orchestrator states reachable through its public operations.  The
initiate step carries the freshness of the new conversation id: the id
embeds the creation second, the proximity system never re-pairs people
whose conversation flags are still set, and the cleanup pass at the end
of every tick removes the pending slots of any id it retires, so an id
being registered anew never has a pending action-processing slot. -/
inductive DMReachable : DMState → Prop
  | init (mt : Nat) : DMReachable (DMState.initState mt)
  | initiate (s : DMState) (a b : Person) (now : ℚ) :
      DMReachable s →
      (Conversation.create a b now).id ∉ s.pending_actions →
      DMReachable (dm_initiate_conversation s a b now)
  | tick (s : DMState) (o : UpdateOracle) (current_time game_time : ℚ) (paused : Bool) :
      DMReachable s →
      DMReachable (dm_update o current_time game_time paused s)
  | view (s : DMState) (cid : String) :
      DMReachable s →
      DMReachable (dm_view_conversation s cid)

/-- Iterated add_message over a list of speaker id, speaker name and
content triples. -/
def run_add_messages (c : Conversation) (items : List (String × String × String)) :
    Conversation :=
  items.foldl (fun c0 it => add_message c0 it.1 it.2.1 it.2.2) c

/-- Entity state reached by the effect-application loop, whether it ran
to completion or stopped at an exception. -/
def runEffects (p : Person) (effects : List (String × JVal)) : Person :=
  match apply_effects p effects with
  | .ok q => q
  | .error q => q

/-- Interaction count of the relationship toward another person, zero
when no entry exists yet. -/
def relCount (p : Person) (other_id : String) : Nat :=
  match alistGet p.relationships other_id with
  | some r => r.interaction_count
  | none => 0

/-- Summary history of the relationship toward another person. -/
def relHistory (p : Person) (other_id : String) : List String :=
  match alistGet p.relationships other_id with
  | some r => r.history
  | none => []

/-- Feeling score of the relationship toward another person. -/
def relFeeling (p : Person) (other_id : String) : ℚ :=
  match alistGet p.relationships other_id with
  | some r => r.feeling_score
  | none => 0

/-- Concrete person fixture. -/
def samplePersonA : Person :=
  { id := "person_a", name := "Ada", health := 100, max_health := 100, money := 50 }

/-- Concrete person fixture. -/
def samplePersonB : Person :=
  { id := "person_b", name := "Ben", health := 100, max_health := 100, money := 50 }

/-- Concrete interpreted-action fixture. -/
def sampleAction : InterpretedAction :=
  { description := "hands over 5 gold", actor_id := "person_a", target_id := "person_b" }

/-- A JSON parser result for responses that fail to parse. -/
def jsonParseNone : List Char → Option (List (String × JVal)) := fun _ => none

/-- Resolver response whose only effect arrives under the plural
add_items key and that supplies no narrative. -/
def respItems : String := "\x7b\"target_effects\": \x7b\"add_items\": [\"bread\"]\x7d\x7d"

/-- The object json.loads yields for respItems. -/
def dataItems : List (String × JVal) :=
  [("target_effects", .jobj [("add_items", .jarr [.jstr "bread"])])]

/-- json.loads restricted to the respItems text. -/
def jsonLoadsItems : List Char → Option (List (String × JVal)) :=
  fun cs => if cs = respItems.data then some dataItems else none

/-- Resolver response whose only effect is an added condition and that
supplies no narrative. -/
def respCond : String := "\x7b\"target_effects\": \x7b\"add_condition\": \"bruised\"\x7d\x7d"

/-- The object json.loads yields for respCond. -/
def dataCond : List (String × JVal) :=
  [("target_effects", .jobj [("add_condition", .jstr "bruised")])]

/-- json.loads restricted to the respCond text. -/
def jsonLoadsCond : List Char → Option (List (String × JVal)) :=
  fun cs => if cs = respCond.data then some dataCond else none

/-- A conversation fixture configured with one turn per participant. -/
def convOneTurn : Conversation :=
  { Conversation.create samplePersonA samplePersonB 0 with max_turns := 1 }

/-- An entity fixture at fifty of one hundred health. -/
def personHalf : Person :=
  { id := "p_half", name := "Pat", health := 50, max_health := 100, money := 20 }

/-- The bread catalog item. -/
def breadItem : Item :=
  { id := "bread", name := "Bread", description := "A fresh loaf of bread",
    category := .food, base_value := 5, effects := [("health_restore", 10)] }

/-- An entity fixture holding three bread. -/
def personPantry : Person :=
  { id := "p_pantry", name := "Quinn", health := 100, max_health := 100, money := 10,
    inventory := [{ item := breadItem, quantity := 3 }] }

/-- The pending-job disjointness invariant of the orchestrator: no
conversation id has both a pending dialogue request and a pending
action-processing job. -/
def DMDisjoint (s : DMState) : Prop :=
  ∀ cid, cid ∈ s.pending_requests → cid ∉ s.pending_actions

/-- Invariant tracked through one tick for a conversation id that
entered the tick with an unresolved job: the pacing delay is unchanged,
any pending request for it is not new, and either a job is still pending
for it or its pacing stamp is too fresh for a new turn to be submitted
this tick. -/
def noNewTurnInv (t : ℚ) (s0 : DMState) (w : String) (cur : DMState) : Prop :=
  cur.turn_delay = s0.turn_delay ∧
  (w ∈ cur.pending_requests → w ∈ s0.pending_requests) ∧
  (w ∈ cur.pending_requests ∨ w ∈ cur.pending_actions ∨
    t - lookupTime cur.last_turn_time w < cur.turn_delay)

/-- Entity state carried by one effect-application step, whether it
returned normally or raised. -/
def stepVal (e : Except Person Person) : Person :=
  match e with
  | .ok q => q
  | .error q => q

/-- The normalization loop is the order-preserving filter keeping entries
whose value is neither None nor zero. -/
theorem normFilter_eq_filter (fields : List (String × JVal)) :
    normFilter fields = fields.filter (fun kv => !is_null_or_zero kv.2) := by
  induction fields with
  | nil => rfl
  | cons kv rest ih =>
      cases kv with
      | mk k v =>
          simp only [normFilter, List.filter]
          cases h : is_null_or_zero v <;> simp [h, ih]

/-- C4: the conversation end procedure sets the state to ENDED and clears
both participants in_conversation flags and conversation_partner_id; it
is idempotent, so a second call yields the same conversation state and
participant flags, and after it has run the ENDED state comes with both
participants flags cleared. -/
theorem c4_end_idempotent_and_clears_flags (c : Conversation) :
    (conv_end c).state = ConversationState.ended ∧
    (conv_end c).participant_a.in_conversation = false ∧
    (conv_end c).participant_b.in_conversation = false ∧
    (conv_end c).participant_a.conversation_partner_id = none ∧
    (conv_end c).participant_b.conversation_partner_id = none ∧
    conv_end (conv_end c) = conv_end c :=
  ⟨rfl, rfl, rfl, rfl, rfl, rfl⟩

/-- C5: effect-map normalization drops exactly the entries whose value is
null or compares equal to zero, keeping every other key-value pair
unchanged and in order; in particular the map with health zero, gold
minus five and a null add_condition normalizes to just gold minus five. -/
theorem c5_normalize_effects_filter :
    (∀ fields : List (String × JVal),
        normalize_effects (.jobj fields) =
          .ok (fields.filter (fun kv => !is_null_or_zero kv.2))) ∧
      normalize_effects (.jobj
          [("health", .jnum 0), ("gold", .jnum (-5)), ("add_condition", .jnull)]) =
        .ok [("gold", .jnum (-5))] := by
  constructor
  · intro fields
    simp only [normalize_effects, normFilter_eq_filter]
  · simp only [normalize_effects, normFilter]
    norm_num [is_null_or_zero, pyEqZero]

/-- C7: a dialogue line with no asterisk-delimited action marker makes
interpret return no action without invoking the language-model call,
whatever the response text, parser, speaker and listener would have been. -/
theorem c7_no_marker_skips_llm (dialogue : String)
    (h : containsActionMarker dialogue = false) :
    ∀ (genResponse : String) (jsonParse : List Char → Option (List (String × JVal)))
      (speaker listener : Person),
      interpret genResponse jsonParse dialogue speaker listener = (none, false) := by
  intro genResponse jsonParse speaker listener
  simp [interpret, h]

/-- Witness for C7 at a concrete marker-free line. -/
theorem c7_witness :
    containsActionMarker ("Hello there, friend.") = false ∧
      interpret ("unused response") jsonParseNone ("Hello there, friend.")
        samplePersonA samplePersonB = (none, false) :=
  ⟨rfl, c7_no_marker_skips_llm ("Hello there, friend.") rfl ("unused response")
      jsonParseNone samplePersonA samplePersonB⟩

/-- C2: the resolver returns the neutral outcome, with no success, zero
degree, empty effect maps, empty narrative and zero relationship delta,
both when the generated response contains no parseable JSON object and
when the underlying generation call errors; in neither case does resolve
surface an error to its caller. -/
theorem c2_resolve_neutral_on_failure
    (jsonParse : List Char → Option (List (String × JVal)))
    (action : InterpretedAction) (actor target : Person) :
    (∀ response : String, parsedObj jsonParse response = none →
        resolve (.ok response) jsonParse action actor target =
          .ok (neutral_outcome action)) ∧
    (∀ e : String, resolve (.error e) jsonParse action actor target =
        .ok (neutral_outcome action)) := by
  constructor
  · intro response h
    unfold parsedObj at h
    unfold resolve generate_outcome_sync parse_outcome parseOutcomeBody
    cases hx : extractJsonChars (pyStripChars response.data) with
    | none => simp [hx]
    | some js =>
        rw [hx] at h
        have h2 : jsonParse js = none := h
        simp [hx, h2]
  · intro e
    rfl

/-- Witness for C2 at a concrete unparseable response. -/
theorem c2_witness :
    parsedObj jsonParseNone ("no structured output") = none ∧
      resolve (.ok ("no structured output")) jsonParseNone sampleAction
        samplePersonA samplePersonB = .ok (neutral_outcome sampleAction) :=
  ⟨rfl, (c2_resolve_neutral_on_failure jsonParseNone sampleAction samplePersonA
      samplePersonB).1 ("no structured output") rfl⟩

/-- Iterated add_message always advances the turn counter by the number
of messages added. -/
theorem run_add_messages_turn_count (items : List (String × String × String)) :
    ∀ c : Conversation,
      (run_add_messages c items).turn_count = c.turn_count + items.length := by
  induction items with
  | nil => intro c; simp [run_add_messages]
  | cons it rest ih =>
      intro c
      simp only [run_add_messages, List.foldl_cons] at *
      rw [ih]
      simp [add_message]
      omega

/-- While the turn counter stays strictly below the ceiling, iterated
add_message keeps a STARTING conversation in STARTING and adds up the
turn counter. -/
theorem run_add_messages_below (items : List (String × String × String)) :
    ∀ c : Conversation, c.state = ConversationState.starting →
      c.turn_count + items.length < c.max_turns * 2 →
      (run_add_messages c items).state = ConversationState.starting := by
  induction items with
  | nil => intro c hs _; simpa [run_add_messages] using hs
  | cons it rest ih =>
      intro c hs hlt
      simp only [run_add_messages, List.foldl_cons] at *
      simp only [List.length_cons] at hlt
      have hstep : (add_message c it.1 it.2.1 it.2.2).state = ConversationState.starting := by
        simp only [add_message]
        have : ¬ c.max_turns * 2 ≤ c.turn_count + 1 := by omega
        simp [this, hs]
      have := ih (add_message c it.1 it.2.1 it.2.2) hstep (by simp [add_message]; omega)
      simpa [run_add_messages] using this

/-- Once the number of added messages brings the turn counter exactly to
the ceiling, the final add_message marks the conversation ENDING. -/
theorem run_add_messages_exact (items : List (String × String × String)) :
    ∀ c : Conversation, c.state = ConversationState.starting →
      1 ≤ items.length →
      c.turn_count + items.length = c.max_turns * 2 →
      (run_add_messages c items).state = ConversationState.ending := by
  induction items with
  | nil => intro c _ h1 _; simp at h1
  | cons it rest ih =>
      intro c hs _ heq
      simp only [run_add_messages, List.foldl_cons] at *
      simp only [List.length_cons] at heq
      cases rest with
      | nil =>
          simp only [List.foldl_nil]
          simp only [add_message]
          simp only [List.length_nil] at heq
          have : c.max_turns * 2 ≤ c.turn_count + 1 := by omega
          simp [this]
      | cons r rs =>
          have hstep : (add_message c it.1 it.2.1 it.2.2).state = ConversationState.starting := by
            simp only [add_message]
            have : ¬ c.max_turns * 2 ≤ c.turn_count + 1 := by
              simp only [List.length_cons] at heq; omega
            simp [this, hs]
          have := ih (add_message c it.1 it.2.1 it.2.2) hstep (by simp)
            (by simp only [add_message, List.length_cons] at *; omega)
          simpa [run_add_messages] using this

/-- C3: each add_message appends exactly one dialogue message and bumps
the turn counter by one, and from a STARTING conversation with turn
counter zero and per-participant limit m of at least one, adding exactly
two m messages drives the state to ENDING while adding any fewer leaves
the state short of ENDING. -/
theorem c3_turn_limit_reaches_ending (c : Conversation) (m : Nat)
    (hs : c.state = ConversationState.starting) (h0 : c.turn_count = 0)
    (hm : c.max_turns = m) (hm1 : 1 ≤ m) :
    (∀ (c2 : Conversation) (sid sname content : String),
        (add_message c2 sid sname content).messages =
          c2.messages ++ [{ speaker_id := sid, speaker_name := sname, content := content }] ∧
        (add_message c2 sid sname content).turn_count = c2.turn_count + 1) ∧
    (∀ items : List (String × String × String),
        (items.length = m * 2 →
          (run_add_messages c items).state = ConversationState.ending) ∧
        (items.length < m * 2 →
          (run_add_messages c items).state ≠ ConversationState.ending)) := by
  constructor
  · intro c2 sid sname content
    exact ⟨rfl, rfl⟩
  · intro items
    constructor
    · intro hlen
      exact run_add_messages_exact items c hs (by omega) (by omega)
    · intro hlen
      have := run_add_messages_below items c hs (by omega)
      rw [this]
      simp

/-- Witness for C3 with one turn per participant: two messages reach
ENDING, one message does not. -/
theorem c3_witness :
    convOneTurn.state = ConversationState.starting ∧ convOneTurn.turn_count = 0 ∧
      convOneTurn.max_turns = 1 ∧ 1 ≤ 1 ∧
      ((∀ (c2 : Conversation) (sid sname content : String),
          (add_message c2 sid sname content).messages =
            c2.messages ++ [{ speaker_id := sid, speaker_name := sname, content := content }] ∧
          (add_message c2 sid sname content).turn_count = c2.turn_count + 1) ∧
       (∀ items : List (String × String × String),
          (items.length = 1 * 2 →
            (run_add_messages convOneTurn items).state = ConversationState.ending) ∧
          (items.length < 1 * 2 →
            (run_add_messages convOneTurn items).state ≠ ConversationState.ending))) :=
  ⟨rfl, rfl, rfl, le_refl 1,
    c3_turn_limit_reaches_ending convOneTurn 1 rfl rfl rfl (le_refl 1)⟩

/-- A successful slot-removal pass takes exactly the requested quantity
out of the total count of the item. -/
theorem removeFromSlots_count (item_id : String) (q : ℚ) :
    ∀ (inv inv2 : List InventorySlot),
      removeFromSlots item_id q inv = some inv2 →
      item_count inv2 item_id + q = item_count inv item_id := by
  intro inv
  induction inv with
  | nil => intro inv2 h; simp [removeFromSlots] at h
  | cons slot rest ih =>
      intro inv2 h
      simp only [removeFromSlots] at h
      by_cases hc : slot.item.id = item_id ∧ q ≤ slot.quantity
      · rw [if_pos hc] at h
        by_cases hz : slot.quantity - q ≤ 0
        · rw [if_pos hz] at h
          cases h
          have hq : q = slot.quantity := by linarith [hc.2]
          simp [item_count, hc.1, hq]
          ring
        · rw [if_neg hz] at h
          cases h
          simp [item_count, hc.1]
          ring
      · rw [if_neg hc] at h
        cases hr : removeFromSlots item_id q rest with
        | none => rw [hr] at h; cases h
        | some rest2 =>
            rw [hr] at h
            cases h
            have := ih rest2 hr
            simp only [item_count]
            linarith

/-- A successful slot-removal pass leaves no empty slot behind: slots
keep positive quantities when they had them, the decremented slot is kept
only when it stays positive, and a slot hitting zero is dropped. -/
theorem removeFromSlots_pos (item_id : String) (q : ℚ) :
    ∀ (inv inv2 : List InventorySlot),
      removeFromSlots item_id q inv = some inv2 →
      (∀ s ∈ inv, 0 < s.quantity) → ∀ s ∈ inv2, 0 < s.quantity := by
  intro inv
  induction inv with
  | nil => intro inv2 h; simp [removeFromSlots] at h
  | cons slot rest ih =>
      intro inv2 h hpos
      simp only [removeFromSlots] at h
      by_cases hc : slot.item.id = item_id ∧ q ≤ slot.quantity
      · rw [if_pos hc] at h
        by_cases hz : slot.quantity - q ≤ 0
        · rw [if_pos hz] at h
          cases h
          intro s hs
          exact hpos s (List.mem_cons_of_mem _ hs)
        · rw [if_neg hz] at h
          cases h
          intro s hs
          rcases List.mem_cons.mp hs with h1 | h2
          · subst h1; simp; linarith
          · exact hpos s (List.mem_cons_of_mem _ h2)
      · rw [if_neg hc] at h
        cases hr : removeFromSlots item_id q rest with
        | none => rw [hr] at h; cases h
        | some rest2 =>
            rw [hr] at h
            cases h
            intro s hs
            rcases List.mem_cons.mp hs with h1 | h2
            · subst h1; exact hpos s (List.mem_cons_self _ _)
            · exact ih rest2 hr (fun t ht => hpos t (List.mem_cons_of_mem _ ht)) s h2

/-- C10: inventory removal is all-or-nothing.  For a requested quantity
of at least one, remove_item either succeeds and lowers the total count
of that item by exactly the requested quantity, never leaving an emptied
slot behind, or fails and returns the person entirely unchanged. -/
theorem c10_remove_item_all_or_nothing (p : Person) (item_id : String) (q : ℚ)
    (_hq : 1 ≤ q) :
    ((remove_item p item_id q).1 = true →
        item_count (remove_item p item_id q).2.inventory item_id + q =
          item_count p.inventory item_id ∧
        ((∀ s ∈ p.inventory, 0 < s.quantity) →
          ∀ s ∈ (remove_item p item_id q).2.inventory, 0 < s.quantity)) ∧
    ((remove_item p item_id q).1 = false → (remove_item p item_id q).2 = p) := by
  unfold remove_item
  cases hr : removeFromSlots item_id q p.inventory with
  | none => exact ⟨fun h => by simp at h, fun _ => rfl⟩
  | some inv2 =>
      refine ⟨fun _ => ⟨removeFromSlots_count item_id q p.inventory inv2 hr, ?_⟩,
              fun h => by simp at h⟩
      exact removeFromSlots_pos item_id q p.inventory inv2 hr

/-- Witness for C10: removing two bread from a pantry of three bread
succeeds and leaves exactly one. -/
theorem c10_witness :
    (1 : ℚ) ≤ 2 ∧
      (((remove_item personPantry ("bread") 2).1 = true →
          item_count (remove_item personPantry ("bread") 2).2.inventory ("bread") + 2 =
            item_count personPantry.inventory ("bread") ∧
          ((∀ s ∈ personPantry.inventory, 0 < s.quantity) →
            ∀ s ∈ (remove_item personPantry ("bread") 2).2.inventory, 0 < s.quantity)) ∧
       ((remove_item personPantry ("bread") 2).1 = false →
          (remove_item personPantry ("bread") 2).2 = personPantry)) :=
  ⟨by norm_num, c10_remove_item_all_or_nothing personPantry ("bread") 2 (by norm_num)⟩

/-- Lookup after modifyRel applies the modification to the stored entry. -/
theorem alistGet_modifyRel (l : List (String × Relationship)) (k : String)
    (f : Relationship → Relationship) :
    alistGet (modifyRel l k f) k = Option.map f (alistGet l k) := by
  induction l with
  | nil => rfl
  | cons kv rest ih =>
      cases kv with
      | mk k0 r =>
          simp only [modifyRel]
          by_cases h : k0 = k
          · rw [if_pos h]
            simp [alistGet, h]
          · rw [if_neg h]
            simp [alistGet, h, ih]

/-- Lookup after appending a fresh entry for an absent key finds it. -/
theorem alistGet_append_fresh (l : List (String × Relationship)) (k : String)
    (r : Relationship) (h : alistGet l k = none) :
    alistGet (l ++ [(k, r)]) k = some r := by
  induction l with
  | nil => simp [alistGet]
  | cons kv rest ih =>
      cases kv with
      | mk k0 r0 =>
          simp only [alistGet] at h ⊢
          by_cases h0 : k0 = k
          · rw [if_pos h0] at h; cases h
          · rw [if_neg h0] at h ⊢
            exact ih h

/-- The relationship entry visible after the lazy-creation step. -/
theorem alistGet_ensure (p : Person) (oid nm : String) :
    alistGet (get_relationship_ensure p oid nm).relationships oid =
      some (match alistGet p.relationships oid with
            | some r => r
            | none => { entity_id := oid, entity_name := nm }) := by
  unfold get_relationship_ensure
  cases h : alistGet p.relationships oid with
  | some r => simp [h]
  | none => simpa [h] using alistGet_append_fresh p.relationships oid _ h

/-- The relationship entry visible after update_relationship with a
non-empty summary: feeling clamped, count bumped, time stamped, summary
appended to the bounded history. -/
theorem alistGet_update_relationship (p : Person) (oid : String) (d : ℚ)
    (note : Option String) (sm : String) (hsm : ¬ sm = "") (t : ℚ) :
    alistGet (update_relationship p oid d note (some sm) t).relationships oid =
      some (let r0 := match alistGet p.relationships oid with
                      | some r => r
                      | none => { entity_id := oid, entity_name := "" };
            let r1 := { r0 with
              feeling_score := max (-1) (min 1 (r0.feeling_score + d)),
              interaction_count := r0.interaction_count + 1,
              last_interaction := t }
            let r2 := match note with
              | some n => if n = "" then r1 else { r1 with notes := lastN 5 (r1.notes ++ [n]) }
              | none => r1
            { r2 with history := lastN 10 (r2.history ++ [sm]) }) := by
  unfold update_relationship
  rw [alistGet_modifyRel, alistGet_ensure]
  simp only [Option.map_some, Option.some.injEq]
  cases note with
  | none => simp [hsm]
  | some n =>
      by_cases hn : n = ""
      · simp [hsm, hn]
      · simp [hsm, hn]

/-- In the fallback update after a failed reflection job, the first
participant gains or keeps a relationship entry toward the second with
the interaction count bumped, the generic summary recorded last, and the
feeling nudged by the small positive default. -/
theorem reflections_error_side_a (e : String) (a b : Person) (t : ℚ) :
    (alistGet (generate_reflections (.error e) a b t).1.relationships b.id).isSome = true ∧
    relCount (generate_reflections (.error e) a b t).1 b.id = relCount a b.id + 1 ∧
    relHistory (generate_reflections (.error e) a b t).1 b.id =
      lastN 10 (relHistory a b.id ++ ["Had a conversation"]) ∧
    relFeeling (generate_reflections (.error e) a b t).1 b.id =
      max (-1) (min 1 (relFeeling a b.id + 5/100)) := by
  have hgen : generate_reflections (.error e) a b t =
      update_from_conversation a b (5/100) (5/100) ("Had a conversation") none none t := rfl
  rw [hgen]
  simp only [update_from_conversation, relCount, relHistory, relFeeling]
  rw [alistGet_modifyRel,
      alistGet_update_relationship a b.id (5/100) none ("Had a conversation") (by simp) t]
  cases h : alistGet a.relationships b.id <;> simp [h, lastN]

/-- The same fallback facts for the second participant toward the first. -/
theorem reflections_error_side_b (e : String) (a b : Person) (t : ℚ) :
    (alistGet (generate_reflections (.error e) a b t).2.relationships a.id).isSome = true ∧
    relCount (generate_reflections (.error e) a b t).2 a.id = relCount b a.id + 1 ∧
    relHistory (generate_reflections (.error e) a b t).2 a.id =
      lastN 10 (relHistory b a.id ++ ["Had a conversation"]) ∧
    relFeeling (generate_reflections (.error e) a b t).2 a.id =
      max (-1) (min 1 (relFeeling b a.id + 5/100)) := by
  have hgen : generate_reflections (.error e) a b t =
      update_from_conversation a b (5/100) (5/100) ("Had a conversation") none none t := rfl
  rw [hgen]
  simp only [update_from_conversation, relCount, relHistory, relFeeling]
  rw [alistGet_modifyRel,
      alistGet_update_relationship b a.id (5/100) none ("Had a conversation") (by simp) t]
  cases h : alistGet b.relationships a.id <;> simp [h, lastN]

/-- C9: when the reflection job for an ended conversation fails, both
participants relationships are still updated with the small positive
default feeling delta and the generic summary: the entry toward the other
participant exists afterward, its interaction count is incremented, its
history gains the generic summary last, and its feeling moves by the
default delta under the usual clamp; and an errored reflection call
itself already falls back to that delta and summary. -/
theorem c9_reflection_failure_still_updates (e : String) (a b : Person) (t : ℚ) :
    ((alistGet (generate_reflections (.error e) a b t).1.relationships b.id).isSome = true ∧
     relCount (generate_reflections (.error e) a b t).1 b.id = relCount a b.id + 1 ∧
     relHistory (generate_reflections (.error e) a b t).1 b.id =
       lastN 10 (relHistory a b.id ++ ["Had a conversation"]) ∧
     relFeeling (generate_reflections (.error e) a b t).1 b.id =
       max (-1) (min 1 (relFeeling a b.id + 5/100))) ∧
    ((alistGet (generate_reflections (.error e) a b t).2.relationships a.id).isSome = true ∧
     relCount (generate_reflections (.error e) a b t).2 a.id = relCount b a.id + 1 ∧
     relHistory (generate_reflections (.error e) a b t).2 a.id =
       lastN 10 (relHistory b a.id ++ ["Had a conversation"]) ∧
     relFeeling (generate_reflections (.error e) a b t).2 a.id =
       max (-1) (min 1 (relFeeling b a.id + 5/100))) ∧
    (∀ (parseFloat : String → Option ℚ) (e2 : String),
        generate_reflection_sync parseFloat (.error e2) =
          { summary := "Had a conversation", delta := 5/100, observation := none }) :=
  ⟨reflections_error_side_a e a b t, reflections_error_side_b e a b t,
    fun _ _ => rfl⟩

/-- Adding an item touches only the inventory. -/
theorem add_item_hm (p : Person) (it : Item) (q : ℚ) :
    (add_item p it q).2.health = p.health ∧
    (add_item p it q).2.max_health = p.max_health ∧
    (add_item p it q).2.money = p.money := by
  unfold add_item
  cases h : addToSlots it q p.inventory
  · simp only []
    split_ifs <;> exact ⟨rfl, rfl, rfl⟩
  · exact ⟨rfl, rfl, rfl⟩

/-- Removing an item touches only the inventory. -/
theorem remove_item_hm (p : Person) (item_id : String) (q : ℚ) :
    (remove_item p item_id q).2.health = p.health ∧
    (remove_item p item_id q).2.max_health = p.max_health ∧
    (remove_item p item_id q).2.money = p.money := by
  unfold remove_item
  cases h : removeFromSlots item_id q p.inventory <;> simp

/-- The add_items loop touches only the inventory, also when it stops at
a bad element. -/
theorem addItemsLoop_hm (xs : List JVal) :
    ∀ p : Person,
      (stepVal (addItemsLoop p xs)).health = p.health ∧
      (stepVal (addItemsLoop p xs)).max_health = p.max_health ∧
      (stepVal (addItemsLoop p xs)).money = p.money := by
  induction xs with
  | nil => intro p; exact ⟨rfl, rfl, rfl⟩
  | cons x rest ih =>
      intro p
      cases x with
      | jstr s0 =>
          simp only [addItemsLoop]
          cases hg : get_item s0 with
          | some it =>
              have h1 := ih (add_item p it 1).2
              have h2 := add_item_hm p it 1
              simp only [hg]
              exact ⟨h1.1.trans h2.1, h1.2.1.trans h2.2.1, h1.2.2.trans h2.2.2⟩
          | none =>
              have h1 := ih p
              simp [hg]
              exact h1
      | jnull => exact ⟨rfl, rfl, rfl⟩
      | jbool b => exact ⟨rfl, rfl, rfl⟩
      | jnum n => exact ⟨rfl, rfl, rfl⟩
      | jarr ys => exact ⟨rfl, rfl, rfl⟩
      | jobj fs => exact ⟨rfl, rfl, rfl⟩

/-- The remove_items loop touches only the inventory. -/
theorem removeItemsLoop_hm (xs : List JVal) :
    ∀ p : Person,
      (removeItemsLoop p xs).health = p.health ∧
      (removeItemsLoop p xs).max_health = p.max_health ∧
      (removeItemsLoop p xs).money = p.money := by
  induction xs with
  | nil => intro p; exact ⟨rfl, rfl, rfl⟩
  | cons x rest ih =>
      intro p
      cases x with
      | jstr s0 =>
          have h1 := ih (remove_item p s0 1).2
          have h2 := remove_item_hm p s0 1
          simp only [removeItemsLoop]
          exact ⟨h1.1.trans h2.1, h1.2.1.trans h2.2.1, h1.2.2.trans h2.2.2⟩
      | jnull => exact ih p
      | jbool b => exact ih p
      | jnum n => exact ih p
      | jarr ys => exact ih p
      | jobj fs => exact ih p

/-- The give_item branch touches only the inventory. -/
theorem giveItemEffect_hm (p : Person) (fs : List (String × JVal)) :
    (stepVal (giveItemEffect p fs)).health = p.health ∧
    (stepVal (giveItemEffect p fs)).max_health = p.max_health ∧
    (stepVal (giveItemEffect p fs)).money = p.money := by
  unfold giveItemEffect
  cases hv : pyGetD fs ("item") (.jstr "") with
  | jstr s0 =>
      dsimp only
      by_cases hm : p.inventory.any (fun sl => sl.item.id == s0)
      · rw [if_pos hm]
        cases hq : pyNumQ (pyGetD fs ("quantity") (.jnum 1)) with
        | some q => simpa [stepVal] using remove_item_hm p s0 q
        | none => exact ⟨rfl, rfl, rfl⟩
      · rw [if_neg hm]; exact ⟨rfl, rfl, rfl⟩
  | jnull => exact ⟨rfl, rfl, rfl⟩
  | jbool b => exact ⟨rfl, rfl, rfl⟩
  | jnum n => exact ⟨rfl, rfl, rfl⟩
  | jarr ys => exact ⟨rfl, rfl, rfl⟩
  | jobj gs => exact ⟨rfl, rfl, rfl⟩

/-- The receive_item branch touches only the inventory. -/
theorem receiveItemEffect_hm (p : Person) (fs : List (String × JVal)) :
    (stepVal (receiveItemEffect p fs)).health = p.health ∧
    (stepVal (receiveItemEffect p fs)).max_health = p.max_health ∧
    (stepVal (receiveItemEffect p fs)).money = p.money := by
  unfold receiveItemEffect
  cases hv : pyGetD fs ("item") (.jstr "") with
  | jstr s0 =>
      dsimp only
      cases hg : get_item s0 with
      | some it =>
          cases hq : pyNumQ (pyGetD fs ("quantity") (.jnum 1)) with
          | some q => simpa [stepVal] using add_item_hm p it q
          | none => exact ⟨rfl, rfl, rfl⟩
      | none => exact ⟨rfl, rfl, rfl⟩
  | jnull => exact ⟨rfl, rfl, rfl⟩
  | jbool b => exact ⟨rfl, rfl, rfl⟩
  | jnum n => exact ⟨rfl, rfl, rfl⟩
  | jarr ys => exact ⟨rfl, rfl, rfl⟩
  | jobj gs => exact ⟨rfl, rfl, rfl⟩


/-- Damage clamps health into the valid band. -/
theorem take_damage_bounds (p : Person) (a : ℚ)
    (h1 : 0 ≤ p.health) (h2 : p.health ≤ p.max_health) (ha : 0 ≤ a) :
    0 ≤ (take_damage p a).health ∧ (take_damage p a).health ≤ (take_damage p a).max_health := by
  unfold take_damage
  constructor
  · exact le_max_left 0 _
  · show max 0 (p.health - a) ≤ p.max_health
    rw [max_le_iff]
    exact ⟨le_trans h1 h2, by linarith⟩

/-- Healing clamps health into the valid band for a non-negative amount. -/
theorem heal_bounds (p : Person) (a : ℚ)
    (h1 : 0 ≤ p.health) (h2 : p.health ≤ p.max_health) (ha : 0 ≤ a) :
    0 ≤ (heal p a).health ∧ (heal p a).health ≤ (heal p a).max_health := by
  unfold heal
  constructor
  · show 0 ≤ min p.max_health (p.health + a)
    rw [le_min_iff]
    exact ⟨le_trans h1 h2, by linarith⟩
  · exact min_le_left _ _

/-- Adding a condition touches only the condition labels. -/
theorem add_condition_hm (p : Person) (cs : String) :
    (add_condition p cs).health = p.health ∧
    (add_condition p cs).max_health = p.max_health ∧
    (add_condition p cs).money = p.money := by
  unfold add_condition
  split_ifs <;> exact ⟨rfl, rfl, rfl⟩

/-- One effect-application step keeps health within zero and max health
and money at least zero, whether it returns normally or raises. -/
theorem applyEffect_bounds (p : Person) (k : String) (v : JVal)
    (h1 : 0 ≤ p.health) (h2 : p.health ≤ p.max_health) (h3 : 0 ≤ p.money) :
    0 ≤ (stepVal (applyEffect p k v)).health ∧
    (stepVal (applyEffect p k v)).health ≤ (stepVal (applyEffect p k v)).max_health ∧
    0 ≤ (stepVal (applyEffect p k v)).money := by
  have hsame : ∀ q : Person,
      q.health = p.health → q.max_health = p.max_health → q.money = p.money →
      0 ≤ q.health ∧ q.health ≤ q.max_health ∧ 0 ≤ q.money := by
    intro q e1 e2 e3
    rw [e1, e2, e3]
    exact ⟨h1, h2, h3⟩
  unfold applyEffect
  split
  · exact ⟨h1, h2, h3⟩
  · cases hv : pyNumQ v with
    | some n =>
        simp only [hv]
        split_ifs with hlt
        · exact ⟨(take_damage_bounds p (abs n) h1 h2 (abs_nonneg n)).1,
                 (take_damage_bounds p (abs n) h1 h2 (abs_nonneg n)).2, h3⟩
        · exact ⟨(heal_bounds p n h1 h2 (not_lt.mp hlt)).1,
                 (heal_bounds p n h1 h2 (not_lt.mp hlt)).2, h3⟩
    | none => simp only [hv]; exact ⟨h1, h2, h3⟩
  · cases hv : pyNumQ v with
    | some n => simp only [hv]; exact ⟨h1, h2, le_max_left 0 _⟩
    | none => simp only [hv]; exact ⟨h1, h2, h3⟩
  · rename_i cs
    split_ifs with he
    · exact ⟨h1, h2, h3⟩
    · exact hsame _ (add_condition_hm p cs).1 (add_condition_hm p cs).2.1
        (add_condition_hm p cs).2.2
  · rename_i cs
    split_ifs with he
    · exact ⟨h1, h2, h3⟩
    · exact hsame _ rfl rfl rfl
  · rename_i s0
    cases hg : get_item s0 with
    | some it =>
        simp only [hg]
        exact hsame _ (add_item_hm p it 1).1 (add_item_hm p it 1).2.1 (add_item_hm p it 1).2.2
    | none => simp only [hg]; exact ⟨h1, h2, h3⟩
  · rename_i xs
    exact hsame _ (addItemsLoop_hm xs p).1 (addItemsLoop_hm xs p).2.1 (addItemsLoop_hm xs p).2.2
  · rename_i s0
    exact hsame _ (remove_item_hm p s0 1).1 (remove_item_hm p s0 1).2.1
      (remove_item_hm p s0 1).2.2
  · rename_i xs
    exact hsame _ (removeItemsLoop_hm xs p).1 (removeItemsLoop_hm xs p).2.1
      (removeItemsLoop_hm xs p).2.2
  · rename_i fs
    exact hsame _ (giveItemEffect_hm p fs).1 (giveItemEffect_hm p fs).2.1
      (giveItemEffect_hm p fs).2.2
  · rename_i fs
    exact hsame _ (receiveItemEffect_hm p fs).1 (receiveItemEffect_hm p fs).2.1
      (receiveItemEffect_hm p fs).2.2
  · exact ⟨h1, h2, h3⟩

/-- The whole effect-application loop keeps health within zero and max
health and money at least zero, also when it stops at an exception. -/
theorem apply_effects_bounds (effects : List (String × JVal)) :
    ∀ p : Person, 0 ≤ p.health → p.health ≤ p.max_health → 0 ≤ p.money →
      0 ≤ (runEffects p effects).health ∧
      (runEffects p effects).health ≤ (runEffects p effects).max_health ∧
      0 ≤ (runEffects p effects).money := by
  induction effects with
  | nil => intro p h1 h2 h3; exact ⟨h1, h2, h3⟩
  | cons kv rest ih =>
      intro p h1 h2 h3
      cases kv with
      | mk k v =>
          have hb := applyEffect_bounds p k v h1 h2 h3
          cases happ : applyEffect p k v with
          | ok p2 =>
              rw [happ] at hb
              have hrun : runEffects p ((k, v) :: rest) = runEffects p2 rest := by
                simp only [runEffects, apply_effects, happ]
              rw [hrun]
              exact ih p2 hb.1 hb.2.1 hb.2.2
          | error p2 =>
              rw [happ] at hb
              have hrun : runEffects p ((k, v) :: rest) = p2 := by
                unfold runEffects apply_effects
                rw [happ]
              rw [hrun]
              exact hb

/-- C6: the state applier clamps health to the band from zero to max
health and clamps gold at zero, for every entity and effect map; in
particular a health delta of minus one thousand on an entity at fifty of
one hundred health lands exactly at zero. -/
theorem c6_state_applier_clamps :
    (∀ (p : Person) (effects : List (String × JVal)),
        0 ≤ p.health → p.health ≤ p.max_health → 0 ≤ p.money →
        0 ≤ (runEffects p effects).health ∧
        (runEffects p effects).health ≤ (runEffects p effects).max_health ∧
        0 ≤ (runEffects p effects).money) ∧
    (runEffects personHalf [("health", .jnum (-1000))]).health = 0 := by
  constructor
  · intro p effects h1 h2 h3
    exact apply_effects_bounds effects p h1 h2 h3
  · show (max 0 (personHalf.health - abs (-1000 : ℚ))) = 0
    norm_num [personHalf]

/-- Witness for C6 at the entity at fifty of one hundred health. -/
theorem c6_witness :
    (0 ≤ personHalf.health ∧ personHalf.health ≤ personHalf.max_health ∧
      0 ≤ personHalf.money) ∧
    (0 ≤ (runEffects personHalf [("health", .jnum (-1000))]).health ∧
      (runEffects personHalf [("health", .jnum (-1000))]).health ≤
        (runEffects personHalf [("health", .jnum (-1000))]).max_health ∧
      0 ≤ (runEffects personHalf [("health", .jnum (-1000))]).money) :=
  ⟨⟨by norm_num [personHalf], by norm_num [personHalf], by norm_num [personHalf]⟩,
    c6_state_applier_clamps.1 personHalf [("health", .jnum (-1000))]
      (by norm_num [personHalf]) (by norm_num [personHalf]) (by norm_num [personHalf])⟩

/-- Counterexample for C8: a parsed resolver output whose only effect
arrives under the plural add_items key, with no narrative supplied,
yields an outcome whose narrative is empty even though a non-zero effect
is present, because the mechanical synthesis emits clauses only for the
singular item keys. -/
theorem c8_counterexample :
    parse_outcome jsonLoadsItems respItems sampleAction samplePersonA samplePersonB =
      .ok { action := sampleAction, success := false, degree := 1/2,
            actor_effects := [],
            target_effects := [("add_items", .jarr [.jstr "bread"])],
            narrative := "", relationship_delta := 0 } ∧
    [("add_items", JVal.jarr [JVal.jstr ("bread")])] ≠ ([] : List (String × JVal)) :=
  ⟨rfl, List.cons_ne_nil _ _⟩

/-- C8 amended: when the parsed output has a non-empty normalized effect
map but an empty narrative field, the returned narrative is exactly the
mechanical synthesis of _generate_factual_narrative, which concatenates
clauses in the fixed order target health loss, target added condition,
target gold, target single-item gain, target single-item loss, then the
same for the actor; effects that fit none of those clause forms, such as
health gains or the plural add_items and remove_items arrays, contribute
no clause, and with no applicable clause the narrative stays empty. -/
theorem c8_empty_narrative_mechanical
    (jp : List Char → Option (List (String × JVal)))
    (response : String) (action : InterpretedAction) (actor target : Person)
    (js : List Char) (data ae te : List (String × JVal)) (nar : String)
    (hx : extractJsonChars (pyStripChars response.data) = some js)
    (hj : jp js = some data)
    (hn : pyGetD data ("narrative") (.jstr "") = .jstr "")
    (hae : normalize_effects (pyGetD data ("actor_effects") (.jobj [])) = .ok ae)
    (hte : normalize_effects (pyGetD data ("target_effects") (.jobj [])) = .ok te)
    (hne : effsNonempty ae te = true)
    (hgen : generate_factual_narrative actor.name target.name ae te = .ok nar) :
    parse_outcome jp response action actor target = .ok
      { action := action,
        success := pyTruthy (pyGetD data ("success") (.jbool false)),
        degree := match pyNumQ (pyGetD data ("degree") (.jnum (1/2))) with
                  | some q => q
                  | none => 0,
        actor_effects := ae, target_effects := te,
        narrative := nar,
        relationship_delta :=
          match pyNumQ (pyGetD data ("relationship_delta") (.jnum 0)) with
          | some q => q
          | none => 0 } := by
  unfold parse_outcome parseOutcomeBody
  simp only [hx, hj, hae, hte, hn, hne, pyTruthy]
  simp [hgen]

/-- Witness for the amended C8 at a concrete added-condition effect. -/
theorem c8_witness :
    extractJsonChars (pyStripChars respCond.data) = some respCond.data ∧
    jsonLoadsCond respCond.data = some dataCond ∧
    pyGetD dataCond ("narrative") (.jstr "") = .jstr "" ∧
    normalize_effects (pyGetD dataCond ("actor_effects") (.jobj [])) = .ok [] ∧
    normalize_effects (pyGetD dataCond ("target_effects") (.jobj [])) =
      .ok [("add_condition", .jstr "bruised")] ∧
    effsNonempty [] [("add_condition", .jstr "bruised")] = true ∧
    generate_factual_narrative samplePersonA.name samplePersonB.name []
      [("add_condition", .jstr "bruised")] = .ok ("Ben suffers bruised.") ∧
    parse_outcome jsonLoadsCond respCond sampleAction samplePersonA samplePersonB = .ok
      { action := sampleAction, success := false, degree := 1/2,
        actor_effects := [],
        target_effects := [("add_condition", .jstr "bruised")],
        narrative := "Ben suffers bruised.", relationship_delta := 0 } :=
  ⟨rfl, rfl, rfl, rfl, rfl, rfl, rfl,
    c8_empty_narrative_mechanical jsonLoadsCond respCond sampleAction samplePersonA
      samplePersonB respCond.data dataCond [] [("add_condition", .jstr "bruised")]
      ("Ben suffers bruised.") rfl rfl rfl rfl rfl rfl rfl⟩

/-- Membership in the key-set insert. -/
theorem mem_insertId {l : List String} {c x : String} :
    x ∈ insertId l c ↔ x = c ∨ x ∈ l := by
  unfold insertId
  by_cases h : c ∈ l
  · rw [if_pos h]
    constructor
    · exact Or.inr
    · intro hx
      rcases hx with hx | hx
      · rw [hx]; exact h
      · exact hx
  · rw [if_neg h]
    exact List.mem_cons

/-- Membership in the key-set delete. -/
theorem mem_eraseId {l : List String} {k x : String} :
    x ∈ eraseId l k ↔ x ∈ l ∧ x ≠ k := by
  induction l with
  | nil => simp [eraseId]
  | cons c rest ih =>
      unfold eraseId
      by_cases h : c = k
      · rw [if_pos h]
        rw [ih]
        subst h
        constructor
        · intro hx; exact ⟨List.mem_cons_of_mem _ hx.1, hx.2⟩
        · intro hx
          rcases List.mem_cons.mp hx.1 with h1 | h1
          · exact absurd h1 hx.2
          · exact ⟨h1, hx.2⟩
      · rw [if_neg h]
        constructor
        · intro hx
          rcases List.mem_cons.mp hx with h1 | h1
          · subst h1; exact ⟨List.mem_cons_self _ _, h⟩
          · exact ⟨List.mem_cons_of_mem _ (ih.mp h1).1, (ih.mp h1).2⟩
        · intro hx
          rcases List.mem_cons.mp hx.1 with h1 | h1
          · subst h1; exact List.mem_cons_self _ _
          · exact List.mem_cons_of_mem _ (ih.mpr ⟨h1, hx.2⟩)

/-- Ending a conversation does not touch the pending-job registries. -/
theorem dm_end_conversation_pending (s : DMState) (cid : String) :
    (dm_end_conversation s cid).pending_requests = s.pending_requests ∧
    (dm_end_conversation s cid).pending_actions = s.pending_actions := by
  unfold dm_end_conversation
  cases h : alistGet s.conversations cid <;> exact ⟨rfl, rfl⟩

/-- Forcing a conversation to end does not touch the pending-job
registries. -/
theorem dm_force_end_conversation_pending (s : DMState) (cid : String) :
    (dm_force_end_conversation s cid).pending_requests = s.pending_requests ∧
    (dm_force_end_conversation s cid).pending_actions = s.pending_actions := by
  unfold dm_force_end_conversation
  cases h : alistGet s.conversations cid with
  | none => exact ⟨rfl, rfl⟩
  | some conv =>
      exact ⟨(dm_end_conversation_pending _ _).1, (dm_end_conversation_pending _ _).2⟩

/-- Applying an action result, in both its normal and its exception exit,
does not touch the pending-job registries. -/
theorem dm_apply_action_result_pending (s : DMState) (cid : String)
    (r : ActionResult) (g : ℚ) :
    (dmVal (dm_apply_action_result s cid r g)).pending_requests = s.pending_requests ∧
    (dmVal (dm_apply_action_result s cid r g)).pending_actions = s.pending_actions := by
  unfold dm_apply_action_result
  cases h : alistGet s.conversations cid with
  | none => exact ⟨rfl, rfl⟩
  | some conv =>
      dsimp only
      cases h2 : applyResultToConv conv r g <;> exact ⟨rfl, rfl⟩

/-- Clearing a collected action slot erases exactly that id from the
action registry. -/
theorem dm_clear_action_slot_pending (s : DMState) (cid : String) (t : ℚ) :
    (dm_clear_action_slot s cid t).pending_requests = s.pending_requests ∧
    (dm_clear_action_slot s cid t).pending_actions = eraseId s.pending_actions cid :=
  ⟨rfl, rfl⟩

/-- The turn-ceiling check does not touch the pending-job registries. -/
theorem dm_check_force_end_pending (s : DMState) (cid : String) :
    (dm_check_force_end s cid).pending_requests = s.pending_requests ∧
    (dm_check_force_end s cid).pending_actions = s.pending_actions := by
  unfold dm_check_force_end
  cases h : alistGet s.conversations cid with
  | none => exact ⟨rfl, rfl⟩
  | some conv2 =>
      dsimp only
      split_ifs with hf
      · exact dm_force_end_conversation_pending s cid
      · exact ⟨rfl, rfl⟩

/-- Collecting an action job leaves the request registry alone and only
erases from the action registry. -/
theorem dm_collect_action_pending (o : UpdateOracle) (t g : ℚ)
    (s : DMState) (cid : String) :
    (dm_collect_action o t g s cid).pending_requests = s.pending_requests ∧
    (dm_collect_action o t g s cid).pending_actions = eraseId s.pending_actions cid := by
  unfold dm_collect_action
  have hb : ∀ sb : DMState, sb.pending_requests = s.pending_requests →
      sb.pending_actions = s.pending_actions →
      (dm_check_force_end (dm_clear_action_slot sb cid t) cid).pending_requests =
        s.pending_requests ∧
      (dm_check_force_end (dm_clear_action_slot sb cid t) cid).pending_actions =
        eraseId s.pending_actions cid := by
    intro sb h1 h2
    constructor
    · rw [(dm_check_force_end_pending _ _).1, (dm_clear_action_slot_pending _ _ _).1, h1]
    · rw [(dm_check_force_end_pending _ _).2, (dm_clear_action_slot_pending _ _ _).2, h2]
  cases har : o.act_result cid with
  | ok r =>
      exact hb _ (dm_apply_action_result_pending s cid r g).1
        (dm_apply_action_result_pending s cid r g).2
  | error err => exact hb s rfl rfl

/-- Handling a turn result leaves the request registry alone and only
inserts the collected id into the action registry. -/
theorem dm_handle_turn_result_pending (s : DMState) (cid : String) (response : String) :
    (dm_handle_turn_result s cid response).pending_requests = s.pending_requests ∧
    ∀ x, x ∈ (dm_handle_turn_result s cid response).pending_actions →
      x = cid ∨ x ∈ s.pending_actions := by
  unfold dm_handle_turn_result
  cases h : alistGet s.conversations cid with
  | none => exact ⟨rfl, fun x hx => Or.inr hx⟩
  | some conv => exact ⟨rfl, fun x hx => mem_insertId.mp hx⟩

/-- Collecting a dialogue request erases the collected id from the
request registry and at most inserts it into the action registry. -/
theorem dm_collect_request_pending (o : UpdateOracle) (t : ℚ)
    (s : DMState) (cid : String) (conv : Conversation) :
    (dm_collect_request o t s cid conv).pending_requests =
      eraseId (match o.req_result cid with
               | .ok response => dm_handle_turn_result s cid response
               | .error _ => dm_request_failed s cid conv t).pending_requests cid ∧
    (∀ x, x ∈ (dm_collect_request o t s cid conv).pending_requests →
        x ∈ s.pending_requests ∧ x ≠ cid) ∧
    (∀ x, x ∈ (dm_collect_request o t s cid conv).pending_actions →
        x = cid ∨ x ∈ s.pending_actions) := by
  refine ⟨rfl, ?_, ?_⟩
  · intro x hx
    unfold dm_collect_request dm_clear_request_slot at hx
    rw [mem_eraseId] at hx
    cases har : o.req_result cid with
    | ok response =>
        rw [har] at hx
        rw [(dm_handle_turn_result_pending s cid response).1] at hx
        exact hx
    | error err =>
        rw [har] at hx
        exact hx
  · intro x hx
    unfold dm_collect_request dm_clear_request_slot at hx
    cases har : o.req_result cid with
    | ok response =>
        rw [har] at hx
        exact (dm_handle_turn_result_pending s cid response).2 x hx
    | error err =>
        rw [har] at hx
        exact Or.inr hx

/-- Starting a turn leaves the action registry alone, at most inserts the
started id into the request registry, and is a no-op when that id already
has a pending request. -/
theorem dm_start_turn_pending (s : DMState) (cid : String) :
    (dm_start_turn s cid).pending_actions = s.pending_actions ∧
    (∀ x, x ∈ (dm_start_turn s cid).pending_requests → x = cid ∨ x ∈ s.pending_requests) ∧
    (cid ∈ s.pending_requests → dm_start_turn s cid = s) := by
  unfold dm_start_turn
  by_cases hp : cid ∈ s.pending_requests
  · rw [if_pos hp]
    exact ⟨rfl, fun x hx => Or.inr hx, fun _ => rfl⟩
  · rw [if_neg hp]
    cases h : alistGet s.conversations cid with
    | none => exact ⟨rfl, fun x hx => Or.inr hx, fun hc => absurd hc hp⟩
    | some conv =>
        dsimp only
        by_cases ha : (!conv_is_active conv) = true
        · rw [if_pos ha]
          exact ⟨rfl, fun x hx => Or.inr hx, fun hc => absurd hc hp⟩
        · rw [if_neg ha]
          exact ⟨rfl, fun x hx => mem_insertId.mp hx, fun hc => absurd hc hp⟩

/-- The per-conversation tick body preserves pending-job disjointness. -/
theorem dm_process_conv_disjoint (o : UpdateOracle) (t g : ℚ) (pz : Bool)
    (s : DMState) (cid : String) (h : DMDisjoint s) :
    DMDisjoint (dm_process_conv o t g pz s cid) := by
  unfold dm_process_conv
  cases hconv : alistGet s.conversations cid with
  | none => exact h
  | some conv =>
      dsimp only
      by_cases hact : (!conv_is_active conv) = true
      · rw [if_pos hact]; exact h
      · rw [if_neg hact]
        by_cases hpa : cid ∈ s.pending_actions
        · rw [if_pos hpa]
          by_cases hdone : o.act_done cid = true
          · rw [if_pos hdone]
            intro x hxr
            rw [(dm_collect_action_pending o t g s cid).1] at hxr
            rw [(dm_collect_action_pending o t g s cid).2]
            intro hxa
            exact h x hxr (mem_eraseId.mp hxa).1
          · rw [if_neg hdone]; exact h
        · rw [if_neg hpa]
          by_cases hpr : cid ∈ s.pending_requests
          · rw [if_pos hpr]
            by_cases hdone : o.req_done cid = true
            · rw [if_pos hdone]
              intro x hxr
              have hmem := (dm_collect_request_pending o t s cid conv).2.1 x hxr
              intro hxa
              rcases (dm_collect_request_pending o t s cid conv).2.2 x hxa with heq | hm2
              · exact hmem.2 heq
              · exact h x hmem.1 hm2
            · rw [if_neg hdone]; exact h
          · rw [if_neg hpr]
            split_ifs with hdel
            · intro x hxr
              have hstp := dm_start_turn_pending s cid
              rw [hstp.1]
              rcases hstp.2.1 x hxr with he | hm
              · rw [he]; exact hpa
              · exact h x hm
            · exact h

/-- Starting a turn for an id with no pending action job preserves
pending-job disjointness. -/
theorem dm_start_turn_disjoint (s : DMState) (cid : String)
    (h : DMDisjoint s) (hfresh : cid ∉ s.pending_actions) :
    DMDisjoint (dm_start_turn s cid) := by
  intro x hxr
  have hstp := dm_start_turn_pending s cid
  rw [hstp.1]
  rcases hstp.2.1 x hxr with he | hm
  · rw [he]; exact hfresh
  · exact h x hm

/-- The whole tick loop preserves pending-job disjointness. -/
theorem foldl_process_disjoint (o : UpdateOracle) (t g : ℚ) (pz : Bool)
    (ids : List String) :
    ∀ s : DMState, DMDisjoint s →
      DMDisjoint (ids.foldl (dm_process_conv o t g pz) s) := by
  induction ids with
  | nil => intro s h; exact h
  | cons c rest ih =>
      intro s h
      exact ih _ (dm_process_conv_disjoint o t g pz s c h)

/-- One cleanup removal preserves pending-job disjointness. -/
theorem dm_cleanup_step_disjoint (st : DMState) (cid : String)
    (h : DMDisjoint st) : DMDisjoint (dm_cleanup_step st cid) := by
  intro x hxr
  intro hxa
  exact h x (mem_eraseId.mp hxr).1 (mem_eraseId.mp hxa).1

/-- The cleanup pass preserves pending-job disjointness. -/
theorem dm_cleanup_disjoint (s : DMState) (h : DMDisjoint s) :
    DMDisjoint (dm_cleanup s) := by
  unfold dm_cleanup
  have hfold : ∀ (l : List String) (st : DMState), DMDisjoint st →
      DMDisjoint (l.foldl dm_cleanup_step st) := by
    intro l
    induction l with
    | nil => intro st hst; exact hst
    | cons c rest ih => intro st hst; exact ih _ (dm_cleanup_step_disjoint st c hst)
  exact hfold _ s h

/-- One whole tick preserves pending-job disjointness. -/
theorem dm_update_disjoint (o : UpdateOracle) (t g : ℚ) (pz : Bool)
    (s : DMState) (h : DMDisjoint s) : DMDisjoint (dm_update o t g pz s) :=
  dm_cleanup_disjoint _ (foldl_process_disjoint o t g pz _ s h)

/-- Initiating a conversation whose fresh id carries no pending action
slot preserves pending-job disjointness. -/
theorem dm_initiate_disjoint (s : DMState) (a b : Person) (now : ℚ)
    (h : DMDisjoint s)
    (hfresh : (Conversation.create a b now).id ∉ s.pending_actions) :
    DMDisjoint (dm_initiate_conversation s a b now) := by
  unfold dm_initiate_conversation
  exact dm_start_turn_disjoint _ _ h hfresh

/-- Pointing the viewer at a conversation preserves pending-job
disjointness. -/
theorem dm_view_disjoint (s : DMState) (cid : String) (h : DMDisjoint s) :
    DMDisjoint (dm_view_conversation s cid) := by
  unfold dm_view_conversation
  cases hv : alistGet s.conversations cid <;> exact h

/-- Every reachable orchestrator state has disjoint pending registries. -/
theorem dm_reachable_disjoint (s : DMState) (h : DMReachable s) : DMDisjoint s := by
  induction h with
  | init mt => intro x hxr; cases hxr
  | initiate s2 a b now hr hfresh ih => exact dm_initiate_disjoint s2 a b now ih hfresh
  | tick s2 o ct gt pz hr ih => exact dm_update_disjoint o ct gt pz s2 ih
  | view s2 cid hr ih => exact dm_view_disjoint s2 cid ih

/-- The tick body never records a new dialogue request for a conversation
that already has a pending request or a pending action job. -/
theorem dm_process_conv_no_new_request (o : UpdateOracle) (t g : ℚ) (pz : Bool)
    (s : DMState) (cid : String)
    (hpending : cid ∈ s.pending_requests ∨ cid ∈ s.pending_actions) :
    ∀ x, x ∈ (dm_process_conv o t g pz s cid).pending_requests →
      x ∈ s.pending_requests := by
  unfold dm_process_conv
  cases hconv : alistGet s.conversations cid with
  | none => exact fun x hx => hx
  | some conv =>
      dsimp only
      by_cases hact : (!conv_is_active conv) = true
      · rw [if_pos hact]; exact fun x hx => hx
      · rw [if_neg hact]
        by_cases hpa : cid ∈ s.pending_actions
        · rw [if_pos hpa]
          by_cases hdone : o.act_done cid = true
          · rw [if_pos hdone]
            intro x hx
            rw [(dm_collect_action_pending o t g s cid).1] at hx
            exact hx
          · rw [if_neg hdone]; exact fun x hx => hx
        · rw [if_neg hpa]
          have hpr : cid ∈ s.pending_requests := hpending.resolve_right hpa
          rw [if_pos hpr]
          by_cases hdone : o.req_done cid = true
          · rw [if_pos hdone]
            intro x hx
            exact ((dm_collect_request_pending o t s cid conv).2.1 x hx).1
          · rw [if_neg hdone]; exact fun x hx => hx


/-- Storing under a key makes it the looked-up value. -/
theorem alistGet_set_self {α : Type} (l : List (String × α)) (k : String) (v : α) :
    alistGet (alistSet l k v) k = some v := by
  induction l with
  | nil => simp [alistSet, alistGet]
  | cons kv rest ih =>
      cases kv with
      | mk k0 w =>
          unfold alistSet
          by_cases h : k0 = k
          · rw [if_pos h]; simp [alistGet]
          · rw [if_neg h]
            unfold alistGet
            rw [if_neg h]
            exact ih

/-- Storing under a key leaves other lookups unchanged. -/
theorem alistGet_set_other {α : Type} (l : List (String × α)) (k w : String) (v : α)
    (h : w ≠ k) : alistGet (alistSet l k v) w = alistGet l w := by
  induction l with
  | nil =>
      unfold alistSet alistGet
      rw [if_neg (Ne.symm h)]
      rfl
  | cons kv rest ih =>
      cases kv with
      | mk k0 x =>
          unfold alistSet
          by_cases h0 : k0 = k
          · rw [if_pos h0]
            have hk : ¬ k = w := Ne.symm h
            have hk0 : ¬ k0 = w := by rw [h0]; exact hk
            unfold alistGet
            rw [if_neg hk, if_neg hk0]
          · rw [if_neg h0]
            unfold alistGet
            by_cases h1 : k0 = w
            · rw [if_pos h1, if_pos h1]
            · rw [if_neg h1, if_neg h1]
              exact ih

/-- The pacing stamp just written is the one read back. -/
theorem lookupTime_set_self (l : List (String × ℚ)) (k : String) (t : ℚ) :
    lookupTime (alistSet l k t) k = t := by
  unfold lookupTime
  rw [alistGet_set_self]

/-- Writing one pacing stamp leaves the others unchanged. -/
theorem lookupTime_set_other (l : List (String × ℚ)) (k w : String) (t : ℚ)
    (h : w ≠ k) : lookupTime (alistSet l k t) w = lookupTime l w := by
  unfold lookupTime
  rw [alistGet_set_other l k w t h]

/-- Ending a conversation touches neither the pacing table nor the delay. -/
theorem dm_end_conversation_misc (s : DMState) (cid : String) :
    (dm_end_conversation s cid).last_turn_time = s.last_turn_time ∧
    (dm_end_conversation s cid).turn_delay = s.turn_delay := by
  unfold dm_end_conversation
  cases h : alistGet s.conversations cid <;> exact ⟨rfl, rfl⟩

/-- Forcing an end touches neither the pacing table nor the delay. -/
theorem dm_force_end_conversation_misc (s : DMState) (cid : String) :
    (dm_force_end_conversation s cid).last_turn_time = s.last_turn_time ∧
    (dm_force_end_conversation s cid).turn_delay = s.turn_delay := by
  unfold dm_force_end_conversation
  cases h : alistGet s.conversations cid with
  | none => exact ⟨rfl, rfl⟩
  | some conv =>
      exact ⟨(dm_end_conversation_misc _ _).1, (dm_end_conversation_misc _ _).2⟩

/-- Applying an action result touches neither the pacing table nor the
delay. -/
theorem dm_apply_action_result_misc (s : DMState) (cid : String)
    (r : ActionResult) (g : ℚ) :
    (dmVal (dm_apply_action_result s cid r g)).last_turn_time = s.last_turn_time ∧
    (dmVal (dm_apply_action_result s cid r g)).turn_delay = s.turn_delay := by
  unfold dm_apply_action_result
  cases h : alistGet s.conversations cid with
  | none => exact ⟨rfl, rfl⟩
  | some conv =>
      dsimp only
      cases h2 : applyResultToConv conv r g <;> exact ⟨rfl, rfl⟩

/-- The turn-ceiling check touches neither the pacing table nor the delay. -/
theorem dm_check_force_end_misc (s : DMState) (cid : String) :
    (dm_check_force_end s cid).last_turn_time = s.last_turn_time ∧
    (dm_check_force_end s cid).turn_delay = s.turn_delay := by
  unfold dm_check_force_end
  cases h : alistGet s.conversations cid with
  | none => exact ⟨rfl, rfl⟩
  | some conv2 =>
      dsimp only
      split_ifs with hf
      · exact dm_force_end_conversation_misc s cid
      · exact ⟨rfl, rfl⟩

/-- Collecting an action job stamps the pacing time of the collected id
and keeps the delay. -/
theorem dm_collect_action_misc (o : UpdateOracle) (t g : ℚ)
    (s : DMState) (cid : String) :
    (dm_collect_action o t g s cid).last_turn_time = alistSet s.last_turn_time cid t ∧
    (dm_collect_action o t g s cid).turn_delay = s.turn_delay := by
  unfold dm_collect_action
  have hb : ∀ sb : DMState, sb.last_turn_time = s.last_turn_time →
      sb.turn_delay = s.turn_delay →
      (dm_check_force_end (dm_clear_action_slot sb cid t) cid).last_turn_time =
        alistSet s.last_turn_time cid t ∧
      (dm_check_force_end (dm_clear_action_slot sb cid t) cid).turn_delay =
        s.turn_delay := by
    intro sb h1 h2
    constructor
    · rw [(dm_check_force_end_misc _ _).1]
      show alistSet sb.last_turn_time cid t = alistSet s.last_turn_time cid t
      rw [h1]
    · rw [(dm_check_force_end_misc _ _).2]
      show sb.turn_delay = s.turn_delay
      exact h2
  cases har : o.act_result cid with
  | ok r =>
      exact hb _ (dm_apply_action_result_misc s cid r g).1
        (dm_apply_action_result_misc s cid r g).2
  | error err => exact hb s rfl rfl

/-- Starting a turn touches neither the pacing table nor the delay. -/
theorem dm_start_turn_misc (s : DMState) (cid : String) :
    (dm_start_turn s cid).last_turn_time = s.last_turn_time ∧
    (dm_start_turn s cid).turn_delay = s.turn_delay := by
  unfold dm_start_turn
  by_cases hp : cid ∈ s.pending_requests
  · rw [if_pos hp]; exact ⟨rfl, rfl⟩
  · rw [if_neg hp]
    cases h : alistGet s.conversations cid with
    | none => exact ⟨rfl, rfl⟩
    | some conv =>
        dsimp only
        by_cases ha : (!conv_is_active conv) = true
        · rw [if_pos ha]; exact ⟨rfl, rfl⟩
        · rw [if_neg ha]; exact ⟨rfl, rfl⟩

/-- Starting a turn only ever grows the request registry. -/
theorem dm_start_turn_req_mono (s : DMState) (cid x : String)
    (h : x ∈ s.pending_requests) : x ∈ (dm_start_turn s cid).pending_requests := by
  unfold dm_start_turn
  by_cases hp : cid ∈ s.pending_requests
  · rw [if_pos hp]; exact h
  · rw [if_neg hp]
    cases hc : alistGet s.conversations cid with
    | none => exact h
    | some conv =>
        dsimp only
        by_cases ha : (!conv_is_active conv) = true
        · rw [if_pos ha]; exact h
        · rw [if_neg ha]
          exact mem_insertId.mpr (Or.inr h)

/-- The per-conversation tick body preserves the tracked no-new-turn
invariant for an id that entered the tick with an unresolved job. -/
theorem dm_process_conv_tracked (o : UpdateOracle) (t g : ℚ) (pz : Bool)
    (s0 : DMState) (w : String) (hpos : 0 < s0.turn_delay)
    (cur : DMState) (c : String) (hM : noNewTurnInv t s0 w cur) :
    noNewTurnInv t s0 w (dm_process_conv o t g pz cur c) := by
  obtain ⟨hd, h1, h2⟩ := hM
  unfold dm_process_conv
  cases hconv : alistGet cur.conversations c with
  | none => exact ⟨hd, h1, h2⟩
  | some conv =>
      dsimp only
      by_cases hact : (!conv_is_active conv) = true
      · rw [if_pos hact]; exact ⟨hd, h1, h2⟩
      · rw [if_neg hact]
        by_cases hpa : c ∈ cur.pending_actions
        · rw [if_pos hpa]
          by_cases hdone : o.act_done c = true
          · rw [if_pos hdone]
            have hreq := (dm_collect_action_pending o t g cur c).1
            have hactf := (dm_collect_action_pending o t g cur c).2
            have htime := (dm_collect_action_misc o t g cur c).1
            have hdelay := (dm_collect_action_misc o t g cur c).2
            refine ⟨hdelay.trans hd, ?_, ?_⟩
            · intro hw
              rw [hreq] at hw
              exact h1 hw
            · by_cases hwc : w = c
              · right; right
                rw [htime, hdelay]
                rw [hwc, lookupTime_set_self, sub_self]
                rw [hd]
                exact hpos
              · rcases h2 with hw | hw | hw
                · left; rw [hreq]; exact hw
                · right; left
                  rw [hactf]
                  exact mem_eraseId.mpr ⟨hw, hwc⟩
                · right; right
                  rw [htime, hdelay, lookupTime_set_other _ _ _ _ hwc]
                  exact hw
          · rw [if_neg hdone]; exact ⟨hd, h1, h2⟩
        · rw [if_neg hpa]
          by_cases hpr : c ∈ cur.pending_requests
          · rw [if_pos hpr]
            by_cases hdone : o.req_done c = true
            · rw [if_pos hdone]
              cases hres : o.req_result c with
              | ok response =>
                  have hcr : dm_collect_request o t cur c conv =
                      dm_clear_request_slot (dm_handle_turn_result cur c response) c := by
                    unfold dm_collect_request
                    rw [hres]
                  rw [hcr]
                  have hha : (dm_handle_turn_result cur c response).pending_actions =
                      insertId cur.pending_actions c := by
                    unfold dm_handle_turn_result
                    rw [hconv]
                  have hhr : (dm_handle_turn_result cur c response).pending_requests =
                      cur.pending_requests :=
                    (dm_handle_turn_result_pending cur c response).1
                  have hht : (dm_handle_turn_result cur c response).last_turn_time =
                      cur.last_turn_time := by
                    unfold dm_handle_turn_result
                    rw [hconv]
                  have hhd : (dm_handle_turn_result cur c response).turn_delay =
                      cur.turn_delay := by
                    unfold dm_handle_turn_result
                    rw [hconv]
                  unfold dm_clear_request_slot
                  refine ⟨hhd.trans hd, ?_, ?_⟩
                  · intro hw
                    have hw2 : w ∈ eraseId
                        (dm_handle_turn_result cur c response).pending_requests c := hw
                    rw [hhr] at hw2
                    exact h1 (mem_eraseId.mp hw2).1
                  · by_cases hwc : w = c
                    · right; left
                      show w ∈ (dm_handle_turn_result cur c response).pending_actions
                      rw [hha]
                      exact mem_insertId.mpr (Or.inl hwc)
                    · rcases h2 with hw | hw | hw
                      · left
                        show w ∈ eraseId
                          (dm_handle_turn_result cur c response).pending_requests c
                        rw [hhr]
                        exact mem_eraseId.mpr ⟨hw, hwc⟩
                      · right; left
                        show w ∈ (dm_handle_turn_result cur c response).pending_actions
                        rw [hha]
                        exact mem_insertId.mpr (Or.inr hw)
                      · right; right
                        show t - lookupTime
                            (dm_handle_turn_result cur c response).last_turn_time w <
                          (dm_handle_turn_result cur c response).turn_delay
                        rw [hht, hhd]
                        exact hw
              | error err =>
                  have hcr : dm_collect_request o t cur c conv =
                      dm_clear_request_slot (dm_request_failed cur c conv t) c := by
                    unfold dm_collect_request
                    rw [hres]
                  rw [hcr]
                  unfold dm_clear_request_slot dm_request_failed
                  refine ⟨hd, ?_, ?_⟩
                  · intro hw
                    exact h1 (mem_eraseId.mp hw).1
                  · by_cases hwc : w = c
                    · right; right
                      show t - lookupTime (alistSet cur.last_turn_time c t) w <
                        cur.turn_delay
                      rw [hwc, lookupTime_set_self, sub_self, hd]
                      exact hpos
                    · rcases h2 with hw | hw | hw
                      · left; exact mem_eraseId.mpr ⟨hw, hwc⟩
                      · right; left; exact hw
                      · right; right
                        show t - lookupTime (alistSet cur.last_turn_time c t) w <
                          cur.turn_delay
                        rw [lookupTime_set_other _ _ _ _ hwc]
                        exact hw
            · rw [if_neg hdone]; exact ⟨hd, h1, h2⟩
          · rw [if_neg hpr]
            split_ifs with hdel
            · refine ⟨(dm_start_turn_misc cur c).2.trans hd, ?_, ?_⟩
              · intro hw
                rcases (dm_start_turn_pending cur c).2.1 w hw with he | hm
                · exfalso
                  rw [he] at h2
                  rcases h2 with hx | hx | hx
                  · exact hpr hx
                  · exact hpa hx
                  · exact absurd hdel.2 (not_le.mpr hx)
                · exact h1 hm
              · rcases h2 with hw | hw | hw
                · left; exact dm_start_turn_req_mono cur c w hw
                · right; left
                  rw [(dm_start_turn_pending cur c).1]
                  exact hw
                · right; right
                  rw [(dm_start_turn_misc cur c).1, (dm_start_turn_misc cur c).2]
                  exact hw
            · exact ⟨hd, h1, h2⟩

/-- The whole tick loop preserves the tracked no-new-turn invariant. -/
theorem foldl_process_tracked (o : UpdateOracle) (t g : ℚ) (pz : Bool)
    (s0 : DMState) (w : String) (hpos : 0 < s0.turn_delay) (ids : List String) :
    ∀ cur : DMState, noNewTurnInv t s0 w cur →
      noNewTurnInv t s0 w (ids.foldl (dm_process_conv o t g pz) cur) := by
  induction ids with
  | nil => intro cur h; exact h
  | cons c rest ih =>
      intro cur h
      exact ih _ (dm_process_conv_tracked o t g pz s0 w hpos cur c h)

/-- The cleanup pass only removes entries from the request registry. -/
theorem dm_cleanup_req_sub (s : DMState) (w : String) :
    w ∈ (dm_cleanup s).pending_requests → w ∈ s.pending_requests := by
  unfold dm_cleanup
  have hfold : ∀ (l : List String) (st : DMState),
      w ∈ (l.foldl dm_cleanup_step st).pending_requests → w ∈ st.pending_requests := by
    intro l
    induction l with
    | nil => intro st h; exact h
    | cons c rest ih =>
        intro st h
        have := ih _ h
        exact (mem_eraseId.mp this).1
  exact hfold _ s

/-- One whole tick never records a new dialogue request for a
conversation that entered the tick with an unresolved pending request or
pending action. -/
theorem dm_update_no_new_request (o : UpdateOracle) (t g : ℚ) (pz : Bool)
    (s : DMState) (w : String) (hpos : 0 < s.turn_delay)
    (hp : w ∈ s.pending_requests ∨ w ∈ s.pending_actions) :
    w ∈ (dm_update o t g pz s).pending_requests → w ∈ s.pending_requests := by
  intro hw
  unfold dm_update at hw
  have hM0 : noNewTurnInv t s w s := by
    refine ⟨rfl, fun h => h, ?_⟩
    rcases hp with h | h
    · exact Or.inl h
    · exact Or.inr (Or.inl h)
  have hMf := foldl_process_tracked o t g pz s w hpos
    (List.map (fun kv => kv.1) s.conversations) s hM0
  exact hMf.2.1 (dm_cleanup_req_sub _ w hw)

/-- Handing a turn result to the conversation registry never touches the
pacing configuration. -/
theorem dm_handle_turn_result_delay (s : DMState) (cid response : String) :
    (dm_handle_turn_result s cid response).turn_delay = s.turn_delay := by
  unfold dm_handle_turn_result
  cases alistGet s.conversations cid <;> rfl

/-- Collecting a dialogue request never touches the pacing configuration. -/
theorem dm_collect_request_delay (o : UpdateOracle) (t : ℚ)
    (s : DMState) (cid : String) (conv : Conversation) :
    (dm_collect_request o t s cid conv).turn_delay = s.turn_delay := by
  unfold dm_collect_request dm_clear_request_slot
  cases hres : o.req_result cid with
  | ok r =>
      dsimp only
      exact dm_handle_turn_result_delay s cid r
  | error e => rfl

/-- The per-conversation tick body never touches the pacing configuration. -/
theorem dm_process_conv_delay (o : UpdateOracle) (t g : ℚ) (pz : Bool)
    (s : DMState) (c : String) :
    (dm_process_conv o t g pz s c).turn_delay = s.turn_delay := by
  unfold dm_process_conv
  cases hconv : alistGet s.conversations c with
  | none => rfl
  | some conv =>
      dsimp only
      by_cases hact : (!conv_is_active conv) = true
      · rw [if_pos hact]
      · rw [if_neg hact]
        by_cases hpa : c ∈ s.pending_actions
        · rw [if_pos hpa]
          by_cases hdone : o.act_done c = true
          · rw [if_pos hdone]
            exact (dm_collect_action_misc o t g s c).2
          · rw [if_neg hdone]
        · rw [if_neg hpa]
          by_cases hpr : c ∈ s.pending_requests
          · rw [if_pos hpr]
            by_cases hdone : o.req_done c = true
            · rw [if_pos hdone]
              exact dm_collect_request_delay o t s c conv
            · rw [if_neg hdone]
          · rw [if_neg hpr]
            split_ifs with hdel
            · exact (dm_start_turn_misc s c).2
            · rfl

/-- The whole tick loop never touches the pacing configuration. -/
theorem foldl_process_delay (o : UpdateOracle) (t g : ℚ) (pz : Bool)
    (ids : List String) : ∀ st : DMState,
    (ids.foldl (dm_process_conv o t g pz) st).turn_delay = st.turn_delay := by
  induction ids with
  | nil => intro st; rfl
  | cons c rest ih =>
      intro st
      rw [List.foldl_cons, ih, dm_process_conv_delay]

/-- Cleanup never touches the pacing configuration. -/
theorem dm_cleanup_delay (s : DMState) :
    (dm_cleanup s).turn_delay = s.turn_delay := by
  unfold dm_cleanup
  have hfold : ∀ (l : List String) (st : DMState),
      (l.foldl dm_cleanup_step st).turn_delay = st.turn_delay := by
    intro l
    induction l with
    | nil => intro st; rfl
    | cons c rest ih =>
        intro st
        rw [List.foldl_cons, ih]
        rfl
  exact hfold _ s

/-- A whole tick never touches the pacing configuration. -/
theorem dm_update_delay (o : UpdateOracle) (t g : ℚ) (pz : Bool) (s : DMState) :
    (dm_update o t g pz s).turn_delay = s.turn_delay := by
  unfold dm_update
  rw [dm_cleanup_delay]
  exact foldl_process_delay o t g pz _ s

/-- Initiating a conversation never touches the pacing configuration. -/
theorem dm_initiate_delay (s : DMState) (a b : Person) (now : ℚ) :
    (dm_initiate_conversation s a b now).turn_delay = s.turn_delay := by
  unfold dm_initiate_conversation
  exact (dm_start_turn_misc _ _).2

/-- Viewing a conversation never touches the pacing configuration. -/
theorem dm_view_delay (s : DMState) (cid : String) :
    (dm_view_conversation s cid).turn_delay = s.turn_delay := by
  unfold dm_view_conversation
  cases alistGet s.conversations cid <;> rfl

/-- Every reachable orchestrator state carries the configured pacing
delay of one and a half seconds. -/
theorem dm_reachable_delay (s : DMState) (h : DMReachable s) :
    s.turn_delay = 3/2 := by
  induction h with
  | init mt => rfl
  | initiate s a b now hr hfresh ih =>
      rw [dm_initiate_delay]
      exact ih
  | tick s o ct gt pz hr ih =>
      rw [dm_update_delay]
      exact ih
  | view s cid hr ih =>
      rw [dm_view_delay]
      exact ih


/-- C1: in every reachable orchestrator state, no conversation id has
both a pending dialogue request and a pending action-processing job; a
whole update tick never records a new dialogue request for a
conversation that entered the tick with an unresolved pending request or
pending action; the per-conversation body of update has the same
property; and _start_turn is a no-op whenever a pending request for that
conversation id exists. -/
theorem c1_at_most_one_pending_job (s : DMState) (h : DMReachable s) :
    (∀ cid, ¬(cid ∈ s.pending_requests ∧ cid ∈ s.pending_actions)) ∧
    (∀ (o : UpdateOracle) (current_time game_time : ℚ) (paused : Bool) (cid : String),
        cid ∈ s.pending_requests ∨ cid ∈ s.pending_actions →
        cid ∈ (dm_update o current_time game_time paused s).pending_requests →
          cid ∈ s.pending_requests) ∧
    (∀ (o : UpdateOracle) (current_time game_time : ℚ) (paused : Bool) (cid : String),
        cid ∈ s.pending_requests ∨ cid ∈ s.pending_actions →
        ∀ x, x ∈ (dm_process_conv o current_time game_time paused s cid).pending_requests →
          x ∈ s.pending_requests) ∧
    (∀ cid, cid ∈ s.pending_requests → dm_start_turn s cid = s) := by
  refine ⟨?_, ?_, ?_, ?_⟩
  · intro cid hc
    exact dm_reachable_disjoint s h cid hc.1 hc.2
  · intro o ct gt pz cid hp hx
    have hpos : 0 < s.turn_delay := by
      rw [dm_reachable_delay s h]
      norm_num
    exact dm_update_no_new_request o ct gt pz s cid hpos hp hx
  · intro o ct gt pz cid hp x hx
    exact dm_process_conv_no_new_request o ct gt pz s cid hp x hx
  · intro cid hc
    exact (dm_start_turn_pending s cid).2.2 hc

/-- Witness for C1 at the freshly constructed orchestrator. -/
theorem c1_witness :
    (∀ cid, ¬(cid ∈ (DMState.initState 6).pending_requests ∧
        cid ∈ (DMState.initState 6).pending_actions)) ∧
    (∀ (o : UpdateOracle) (current_time game_time : ℚ) (paused : Bool) (cid : String),
        cid ∈ (DMState.initState 6).pending_requests ∨
          cid ∈ (DMState.initState 6).pending_actions →
        cid ∈ (dm_update o current_time game_time paused
            (DMState.initState 6)).pending_requests →
          cid ∈ (DMState.initState 6).pending_requests) ∧
    (∀ (o : UpdateOracle) (current_time game_time : ℚ) (paused : Bool) (cid : String),
        cid ∈ (DMState.initState 6).pending_requests ∨
          cid ∈ (DMState.initState 6).pending_actions →
        ∀ x, x ∈ (dm_process_conv o current_time game_time paused
            (DMState.initState 6) cid).pending_requests →
          x ∈ (DMState.initState 6).pending_requests) ∧
    (∀ cid, cid ∈ (DMState.initState 6).pending_requests →
        dm_start_turn (DMState.initState 6) cid = DMState.initState 6) :=
  c1_at_most_one_pending_job (DMState.initState 6) (DMReachable.init 6)
